import Mathlib

/-!
# mibridge: the decoder and fan-out of `mibridge.go`

A shallow embedding of `parseMsg`, of the receive loop of `Multicast.Start`
and of the publish loop of `Mqtt.Connect`, together with the parts of the Go
standard library they call: `encoding/json` (scanner, string unquoting, storing
into a struct and into a `map[string]interface{}`) and `fmt.Sprintf` with the
verb `%s`.

Go strings are byte sequences; a byte is a natural number here, and the text
of a Lean string literal is taken as its UTF-8 bytes.

Three things are left open and taken as parameters:
* what `strconv.ParseFloat` and the `%v` rendering of a `float64` do with a
  number literal (`FloatLib`): floating point is not modelled;
* the order in which `range` walks a map (`RangeOrder`): any permutation;
* when the publish loop reads a slice it has received, counted in steps of
  the sender (`Reading`): the two loops run side by side.
-/

namespace Mibridge

/-! ## Bytes and UTF-8 -/

/-- A Go string: its bytes, in order. -/
abbrev Bytes := List Nat

/-- Code of an ASCII character. -/
def ch (c : Char) : Nat := c.toNat

/-- The UTF-8 encoding of a rune (`utf8.EncodeRune`): surrogates and values above
U+10FFFF are written as U+FFFD. -/
def encodeRune (r : Nat) : Bytes :=
  if r < 0x80 then [r]
  else if r < 0x800 then [0xC0 + r / 64, 0x80 + r % 64]
  else if (0xD800 ≤ r ∧ r < 0xE000) ∨ 0x10FFFF < r then [0xEF, 0xBF, 0xBD]
  else if r < 0x10000 then [0xE0 + r / 4096, 0x80 + r / 64 % 64, 0x80 + r % 64]
  else [0xF0 + r / 262144, 0x80 + r / 4096 % 64, 0x80 + r / 64 % 64, 0x80 + r % 64]

/-- The bytes of a string literal. -/
def bytes (s : String) : Bytes :=
  (s.data.map fun c => encodeRune c.toNat).flatten

/-- A continuation byte of UTF-8. -/
def isCont (c : Nat) : Bool := 0x80 ≤ c && c ≤ 0xBF

/-- Whether `c1` may follow the first byte `c` of a three-byte sequence: `E0`
needs `A0..BF` (no overlong form), `ED` needs `80..9F` (no surrogate). -/
def second3 (c c1 : Nat) : Bool :=
  (if c = 0xE0 then 0xA0 else 0x80) ≤ c1 && c1 ≤ (if c = 0xED then 0x9F else 0xBF)

/-- Whether `c1` may follow the first byte `c` of a four-byte sequence: `F0`
needs `90..BF` (no overlong form), `F4` needs `80..8F` (at most U+10FFFF). -/
def second4 (c c1 : Nat) : Bool :=
  (if c = 0xF0 then 0x90 else 0x80) ≤ c1 && c1 ≤ (if c = 0xF4 then 0x8F else 0xBF)

/-- Length of the well-formed UTF-8 sequence at the head of `s`, or `0` when
there is none (`utf8.DecodeRune` then yields `RuneError` with width 1). -/
def runeLen (s : Bytes) : Nat :=
  match s with
  | [] => 0
  | c :: rest =>
    if c < 0x80 then 1
    else if c < 0xC2 then 0
    else if c < 0xE0 then
      match rest with
      | c1 :: _ => if isCont c1 then 2 else 0
      | _ => 0
    else if c < 0xF0 then
      match rest with
      | c1 :: c2 :: _ => if second3 c c1 && isCont c2 then 3 else 0
      | _ => 0
    else if c < 0xF5 then
      match rest with
      | c1 :: c2 :: c3 :: _ => if second4 c c1 && isCont c2 && isCont c3 then 4 else 0
      | _ => 0
    else 0

/-! ## encoding/json: the scanner (`scanner.go`) -/

/-- The step function the scanner is in (`scanner.step`). -/
inductive Step
  | beginValueOrEmpty | beginValue | beginStringOrEmpty | beginString
  | endValue | endTop
  | inString | inStringEsc | inStringEscU | inStringEscU1 | inStringEscU12 | inStringEscU123
  | neg | one | zero | dot | dot0 | e | eSign | e0
  | t | tr | tru | f | fa | fal | fals | n | nu | nul
  | error
  deriving DecidableEq, Repr

/-- What the scanner is in the middle of (`parseState` entries). -/
inductive ParseState
  | parseObjectKey | parseObjectValue | parseArrayValue
  deriving DecidableEq, Repr

/-- The scanner's verdict on one byte. -/
inductive Op
  | scanContinue | scanBeginLiteral | scanBeginObject | scanObjectKey | scanObjectValue
  | scanEndObject | scanBeginArray | scanArrayValue | scanEndArray | scanSkipSpace
  | scanEnd | scanError
  deriving DecidableEq, Repr

/-- The scanner. `parseState` has the innermost entry first; `err` says that a
syntax error was recorded. -/
structure Scanner where
  step : Step
  parseState : List ParseState
  endTop : Bool
  err : Bool
  deriving DecidableEq, Repr

/-- The scanner after `reset`. -/
def Scanner.reset : Scanner := ⟨.beginValue, [], false, false⟩

def maxNestingDepth : Nat := 10000

/-- Record a syntax error (`scanner.error`). -/
def Scanner.error (s : Scanner) : Scanner × Op :=
  ({ s with step := .error, err := true }, .scanError)

def pushParseState (s : Scanner) (newParseState : ParseState) (successState : Op) :
    Scanner × Op :=
  let s1 := { s with parseState := newParseState :: s.parseState }
  if s1.parseState.length ≤ maxNestingDepth then (s1, successState) else s1.error

def popParseState (s : Scanner) : Scanner :=
  match s.parseState.tail with
  | [] => { s with parseState := [], step := .endTop, endTop := true }
  | ps => { s with parseState := ps, step := .endValue }

def isSpace (c : Nat) : Bool :=
  c = ch ' ' || c = 0x09 || c = 0x0D || c = 0x0A

def isDigit (c : Nat) : Bool := ch '0' ≤ c && c ≤ ch '9'

def isHex (c : Nat) : Bool :=
  isDigit c || (ch 'a' ≤ c && c ≤ ch 'f') || (ch 'A' ≤ c && c ≤ ch 'F')

/-- After the top-level value only space may follow; an error here is
reported by `eof`, and this byte still answers `scanEnd`. -/
def stateEndTop (s : Scanner) (c : Nat) : Scanner × Op :=
  if isSpace c then (s, .scanEnd) else (s.error.1, .scanEnd)

def stateEndValue (s : Scanner) (c : Nat) : Scanner × Op :=
  match s.parseState with
  | [] => stateEndTop { s with step := .endTop, endTop := true } c
  | ps :: rest =>
    if isSpace c then ({ s with step := .endValue }, .scanSkipSpace)
    else
      match ps with
      | .parseObjectKey =>
        if c = ch ':' then
          ({ s with parseState := .parseObjectValue :: rest, step := .beginValue },
            .scanObjectKey)
        else s.error
      | .parseObjectValue =>
        if c = ch ',' then
          ({ s with parseState := .parseObjectKey :: rest, step := .beginString },
            .scanObjectValue)
        else if c = ch '}' then (popParseState s, .scanEndObject)
        else s.error
      | .parseArrayValue =>
        if c = ch ',' then ({ s with step := .beginValue }, .scanArrayValue)
        else if c = ch ']' then (popParseState s, .scanEndArray)
        else s.error

def stateBeginValue (s : Scanner) (c : Nat) : Scanner × Op :=
  if isSpace c then (s, .scanSkipSpace)
  else if c = ch '{' then
    pushParseState { s with step := .beginStringOrEmpty } .parseObjectKey .scanBeginObject
  else if c = ch '[' then
    pushParseState { s with step := .beginValueOrEmpty } .parseArrayValue .scanBeginArray
  else if c = 0x22 then ({ s with step := .inString }, .scanBeginLiteral)
  else if c = ch '-' then ({ s with step := .neg }, .scanBeginLiteral)
  else if c = ch '0' then ({ s with step := .zero }, .scanBeginLiteral)
  else if c = ch 't' then ({ s with step := .t }, .scanBeginLiteral)
  else if c = ch 'f' then ({ s with step := .f }, .scanBeginLiteral)
  else if c = ch 'n' then ({ s with step := .n }, .scanBeginLiteral)
  else if ch '1' ≤ c ∧ c ≤ ch '9' then ({ s with step := .one }, .scanBeginLiteral)
  else s.error

def stateBeginValueOrEmpty (s : Scanner) (c : Nat) : Scanner × Op :=
  if isSpace c then (s, .scanSkipSpace)
  else if c = ch ']' then stateEndValue s c
  else stateBeginValue s c

def stateBeginString (s : Scanner) (c : Nat) : Scanner × Op :=
  if isSpace c then (s, .scanSkipSpace)
  else if c = 0x22 then ({ s with step := .inString }, .scanBeginLiteral)
  else s.error

def stateBeginStringOrEmpty (s : Scanner) (c : Nat) : Scanner × Op :=
  if isSpace c then (s, .scanSkipSpace)
  else if c = ch '}' then
    stateEndValue { s with parseState := .parseObjectValue :: s.parseState.tail } c
  else stateBeginString s c

def stateInString (s : Scanner) (c : Nat) : Scanner × Op :=
  if c = 0x22 then ({ s with step := .endValue }, .scanContinue)
  else if c = 0x5C then ({ s with step := .inStringEsc }, .scanContinue)
  else if c < 0x20 then s.error
  else (s, .scanContinue)

/-- The one-letter escapes the scanner accepts after a backslash. -/
def isSimpleEsc (c : Nat) : Bool :=
  c = ch 'b' || c = ch 'f' || c = ch 'n' || c = ch 'r' || c = ch 't'
    || c = 0x5C || c = ch '/' || c = 0x22

def stateInStringEsc (s : Scanner) (c : Nat) : Scanner × Op :=
  if isSimpleEsc c then ({ s with step := .inString }, .scanContinue)
  else if c = ch 'u' then ({ s with step := .inStringEscU }, .scanContinue)
  else s.error

/-- One hexadecimal digit of a `\u` escape, then on to `next`. -/
def stateHex (next : Step) (s : Scanner) (c : Nat) : Scanner × Op :=
  if isHex c then ({ s with step := next }, .scanContinue) else s.error

/-- One fixed letter of `true`, `false` or `null`, then on to `next`. -/
def stateLetter (letter : Char) (next : Step) (s : Scanner) (c : Nat) : Scanner × Op :=
  if c = ch letter then ({ s with step := next }, .scanContinue) else s.error

def stateNeg (s : Scanner) (c : Nat) : Scanner × Op :=
  if c = ch '0' then ({ s with step := .zero }, .scanContinue)
  else if ch '1' ≤ c ∧ c ≤ ch '9' then ({ s with step := .one }, .scanContinue)
  else s.error

def state0 (s : Scanner) (c : Nat) : Scanner × Op :=
  if c = ch '.' then ({ s with step := .dot }, .scanContinue)
  else if c = ch 'e' || c = ch 'E' then ({ s with step := .e }, .scanContinue)
  else stateEndValue s c

def state1 (s : Scanner) (c : Nat) : Scanner × Op :=
  if isDigit c then ({ s with step := .one }, .scanContinue) else state0 s c

def stateDot (s : Scanner) (c : Nat) : Scanner × Op :=
  if isDigit c then ({ s with step := .dot0 }, .scanContinue) else s.error

def stateDot0 (s : Scanner) (c : Nat) : Scanner × Op :=
  if isDigit c then (s, .scanContinue)
  else if c = ch 'e' || c = ch 'E' then ({ s with step := .e }, .scanContinue)
  else stateEndValue s c

def stateESign (s : Scanner) (c : Nat) : Scanner × Op :=
  if isDigit c then ({ s with step := .e0 }, .scanContinue) else s.error

def stateE (s : Scanner) (c : Nat) : Scanner × Op :=
  if c = ch '+' || c = ch '-' then ({ s with step := .eSign }, .scanContinue)
  else stateESign s c

def stateE0 (s : Scanner) (c : Nat) : Scanner × Op :=
  if isDigit c then (s, .scanContinue) else stateEndValue s c

/-- One call of `scan.step(scan, c)`. -/
def Scanner.feed (s : Scanner) (c : Nat) : Scanner × Op :=
  match s.step with
  | .beginValueOrEmpty => stateBeginValueOrEmpty s c
  | .beginValue => stateBeginValue s c
  | .beginStringOrEmpty => stateBeginStringOrEmpty s c
  | .beginString => stateBeginString s c
  | .endValue => stateEndValue s c
  | .endTop => stateEndTop s c
  | .inString => stateInString s c
  | .inStringEsc => stateInStringEsc s c
  | .inStringEscU => stateHex .inStringEscU1 s c
  | .inStringEscU1 => stateHex .inStringEscU12 s c
  | .inStringEscU12 => stateHex .inStringEscU123 s c
  | .inStringEscU123 => stateHex .inString s c
  | .neg => stateNeg s c
  | .one => state1 s c
  | .zero => state0 s c
  | .dot => stateDot s c
  | .dot0 => stateDot0 s c
  | .e => stateE s c
  | .eSign => stateESign s c
  | .e0 => stateE0 s c
  | .t => stateLetter 'r' .tr s c
  | .tr => stateLetter 'u' .tru s c
  | .tru => stateLetter 'e' .endValue s c
  | .f => stateLetter 'a' .fa s c
  | .fa => stateLetter 'l' .fal s c
  | .fal => stateLetter 's' .fals s c
  | .fals => stateLetter 'e' .endValue s c
  | .n => stateLetter 'u' .nu s c
  | .nu => stateLetter 'l' .nul s c
  | .nul => stateLetter 'l' .endValue s c
  | .error => (s, .scanError)

/-- The scanner after all of `data`. -/
def scanAll (s : Scanner) : Bytes → Scanner
  | [] => s
  | c :: rest => scanAll (s.feed c).1 rest

/-- Whether `eof` accepts: no error so far, and the top-level value is
complete, if need be after one more space. -/
def Scanner.eofOk (s : Scanner) : Bool :=
  if s.err then false
  else if s.endTop then true
  else (s.feed (ch ' ')).1.endTop

/-- Whether `data` is one JSON value (`checkValid` returns no error). -/
def checkValid (data : Bytes) : Bool := (scanAll Scanner.reset data).eofOk

/-! ## encoding/json: values (`decode.go`) -/

/-- A JSON value as the decoder reads it: object entries in the order of the
text, repeated keys included; a number keeps its literal. -/
inductive Value
  | null
  | bool (b : Bool)
  | num (lit : Bytes)
  | str (s : Bytes)
  | arr (elems : List Value)
  | obj (entries : List (Bytes × Value))

/-- The value of a hexadecimal digit. -/
def hexVal (c : Nat) : Nat :=
  if isDigit c then c - ch '0'
  else if ch 'a' ≤ c ∧ c ≤ ch 'f' then c - ch 'a' + 10
  else c - ch 'A' + 10

/-- The four hexadecimal digits of a `\u` escape at the head of `s`
(`getu4`), as a number. -/
def getu4 (s : Bytes) : Option Nat :=
  match s with
  | b :: u :: h1 :: h2 :: h3 :: h4 :: _ =>
    if b = 0x5C ∧ u = ch 'u' ∧ isHex h1 ∧ isHex h2 ∧ isHex h3 ∧ isHex h4 then
      some (((hexVal h1 * 16 + hexVal h2) * 16 + hexVal h3) * 16 + hexVal h4)
    else none
  | _ => none

/-- A surrogate of UTF-16 (`utf16.IsSurrogate`). -/
def isSurrogate (r : Nat) : Bool := 0xD800 ≤ r && r < 0xE000

/-- The rune of a surrogate pair (`utf16.DecodeRune`), when it is one. -/
def decodeSurrogates (r1 r2 : Nat) : Option Nat :=
  if 0xD800 ≤ r1 ∧ r1 < 0xDC00 ∧ 0xDC00 ≤ r2 ∧ r2 < 0xE000 then
    some ((r1 - 0xD800) * 1024 + (r2 - 0xDC00) + 0x10000)
  else none

/-- The byte a one-letter escape stands for. -/
def escapeByte (c : Nat) : Option Nat :=
  if c = 0x22 ∨ c = 0x5C ∨ c = ch '/' ∨ c = 0x27 then some c
  else if c = ch 'b' then some 0x08
  else if c = ch 'f' then some 0x0C
  else if c = ch 'n' then some 0x0A
  else if c = ch 'r' then some 0x0D
  else if c = ch 't' then some 0x09
  else none

/-- The body of `unquoteBytes`, on the text between the quotes. `skip` counts
the bytes of the unit begun earlier that are still to be passed over. Escapes
are replaced, a lone surrogate escape and every byte that begins no
well-formed UTF-8 sequence become U+FFFD. -/
def unquoteBody (skip : Nat) : Bytes → Option Bytes
  | [] => some []
  | c :: rest =>
    match skip with
    | k + 1 => unquoteBody k rest
    | 0 =>
      if c = 0x5C then
        match rest with
        | [] => none
        | e :: _ =>
          if e = ch 'u' then
            match getu4 (c :: rest) with
            | none => none
            | some rr =>
              if isSurrogate rr then
                match (getu4 (rest.drop 5)).bind (decodeSurrogates rr) with
                | some dec => (unquoteBody 11 rest).map (encodeRune dec ++ ·)
                | none => (unquoteBody 5 rest).map (encodeRune 0xFFFD ++ ·)
              else (unquoteBody 5 rest).map (encodeRune rr ++ ·)
          else
            match escapeByte e with
            | some b => (unquoteBody 1 rest).map (b :: ·)
            | none => none
      else if c = 0x22 ∨ c < 0x20 then none
      else if c < 0x80 then (unquoteBody 0 rest).map (c :: ·)
      else
        match runeLen (c :: rest) with
        | 0 => (unquoteBody 0 rest).map (encodeRune 0xFFFD ++ ·)
        | n + 1 => (unquoteBody n rest).map ((c :: rest).take (n + 1) ++ ·)

/-- The Go string of a quoted JSON string literal (`unquoteBytes`). -/
def unquote (s : Bytes) : Option Bytes :=
  match s with
  | q :: rest =>
    if q = 0x22 ∧ rest.getLast? = some 0x22 then unquoteBody 0 rest.dropLast else none
  | [] => none

/-- The value of a literal (string, number, `true`, `false`, `null`), chosen by
its first byte as `literalStore` and `literalInterface` do. -/
def literalValue (item : Bytes) : Option Value :=
  match item with
  | [] => none
  | c :: _ =>
    if c = ch 'n' then some .null
    else if c = ch 't' then some (.bool true)
    else if c = ch 'f' then some (.bool false)
    else if c = 0x22 then (unquote item).map .str
    else if c = ch '-' ∨ isDigit c then some (.num item)
    else none

/-- An array or object being read: what it holds so far, last item first, and
for an object the key that waits for its value. -/
inductive Frame
  | arr (elems : List Value)
  | obj (entries : List (Bytes × Value)) (key : Option Bytes)

/-- The decoder's progress: the literal being read (last byte first), the open
arrays and objects (innermost first), the finished top-level value. `stuck`
is set when the scanner's verdicts do not fit what the decoder holds (Go's
decoder panics with a phase error there); on text that `checkValid` accepts
this does not happen (`decodeValue_of_valid`). -/
structure Decoder where
  lit : Option Bytes
  stack : List Frame
  result : Option Value
  stuck : Bool

def Decoder.init : Decoder := ⟨none, [], none, false⟩

/-- Hand a finished value to the array or object it belongs to. -/
def Decoder.deliver (d : Decoder) (v : Value) : Decoder :=
  match d.stack with
  | [] => { d with result := some v }
  | .arr elems :: rest => { d with stack := .arr (v :: elems) :: rest }
  | .obj entries (some k) :: rest => { d with stack := .obj ((k, v) :: entries) none :: rest }
  | .obj entries none :: rest =>
    match v with
    | .str k => { d with stack := .obj entries (some k) :: rest }
    | _ => { d with stuck := true }

/-- A literal ends at the first byte whose verdict is not `scanContinue`. -/
def Decoder.endLiteral (d : Decoder) : Decoder :=
  match d.lit with
  | none => d
  | some item =>
    match literalValue item.reverse with
    | some v => { d with lit := none }.deliver v
    | none => { d with lit := none, stuck := true }

/-- Close the innermost array or object. -/
def Decoder.close (d : Decoder) : Decoder :=
  match d.stack with
  | .arr elems :: rest => { d with stack := rest }.deliver (.arr elems.reverse)
  | .obj entries none :: rest => { d with stack := rest }.deliver (.obj entries.reverse)
  | _ => { d with stuck := true }

/-- What the decoder does with byte `c` on the scanner's verdict `op`. -/
def Decoder.feed (d : Decoder) (c : Nat) (op : Op) : Decoder :=
  match op with
  | .scanContinue =>
    match d.lit with
    | some item => { d with lit := some (c :: item) }
    | none => d
  | .scanBeginLiteral => { d with lit := some [c] }
  | .scanBeginObject => { d with stack := .obj [] none :: d.stack }
  | .scanBeginArray => { d with stack := .arr [] :: d.stack }
  | .scanEndObject => d.endLiteral.close
  | .scanEndArray => d.endLiteral.close
  | .scanError => d
  | _ => d.endLiteral

/-- Scanner and decoder side by side over `data`. -/
def decodeAll (s : Scanner) (d : Decoder) : Bytes → Scanner × Decoder
  | [] => (s, d)
  | c :: rest => decodeAll (s.feed c).1 (d.feed c (s.feed c).2) rest

/-- The value `data` holds, for text that `checkValid` accepts: at the end of a
text that stops inside a number or right after a literal, the scanner is fed
one space, as `eof` does. -/
def decodeValue (data : Bytes) : Option Value :=
  let (s, d) := decodeAll Scanner.reset Decoder.init data
  let d1 := if s.endTop then d else d.feed (ch ' ') (s.feed (ch ' ')).2
  if d1.stuck then none else d1.result

/-! ## encoding/json: `Unmarshal` into the two destinations of `parseMsg` -/

/-- The two kinds of error `json.Unmarshal` returns here. -/
inductive UnmarshalError
  | syntaxError
  | typeError
  deriving DecidableEq, Repr

/-- Device struct for json data from Xiaomi gateway. -/
structure Device where
  Cmd : Bytes := []
  Token : Bytes := []
  Model : Bytes := []
  Sid : Bytes := []
  ShortId : Bytes := []
  Data : Bytes := []
  deriving DecidableEq, Repr

/-- The fields of `Device`, in the order of the declaration. -/
inductive Field
  | cmd | token | model | sid | shortId | data
  deriving DecidableEq, Repr

/-- The JSON name in the field's tag. -/
def Field.name : Field → Bytes
  | .cmd => bytes "cmd"
  | .token => bytes "token"
  | .model => bytes "model"
  | .sid => bytes "sid"
  | .shortId => bytes "short id"
  | .data => bytes "data"

def Field.all : List Field := [.cmd, .token, .model, .sid, .shortId, .data]

/-- The folded form of a key under which a field is found when no name
matches exactly (`foldName`): ASCII letters in upper case, the Kelvin sign
U+212A as `K`, the long s U+017F as `S`. No other rune folds to an ASCII
letter, and every field name is ASCII, so other bytes are kept. -/
def foldName : Bytes → Bytes
  | [] => []
  | c :: rest =>
    if c = 0xE2 ∧ rest.take 2 = [0x84, 0xAA] then ch 'K' :: foldName.skip 2 rest
    else if c = 0xC5 ∧ rest.take 1 = [0xBF] then ch 'S' :: foldName.skip 1 rest
    else if ch 'a' ≤ c ∧ c ≤ ch 'z' then (c - 32) :: foldName rest
    else c :: foldName rest
where
  /-- Pass over `k` bytes, then go on folding. -/
  skip (k : Nat) : Bytes → Bytes
    | [] => []
    | c :: rest =>
      match k with
      | 0 => foldName (c :: rest)
      | k + 1 => skip k rest

/-- The field a key of the object is stored in: the one whose name is the key,
else the first whose name is the key up to case folding. -/
def findField (key : Bytes) : Option Field :=
  match Field.all.find? fun f => f.name = key with
  | some f => some f
  | none => Field.all.find? fun f => foldName f.name = foldName key

def Device.set (dev : Device) (f : Field) (s : Bytes) : Device :=
  match f with
  | .cmd => { dev with Cmd := s }
  | .token => { dev with Token := s }
  | .model => { dev with Model := s }
  | .sid => { dev with Sid := s }
  | .shortId => { dev with ShortId := s }
  | .data => { dev with Data := s }

/-- Store one entry of the object: a string is stored in its field, `null`
leaves the field as it is, any other value is a type error and leaves the
field as it is; a key that names no field is passed over. -/
def storeEntry (dev : Device) (key : Bytes) (v : Value) : Device × Option UnmarshalError :=
  match findField key with
  | none => (dev, none)
  | some f =>
    match v with
    | .str s => (dev.set f s, none)
    | .null => (dev, none)
    | _ => (dev, some .typeError)

/-- Store the entries in the order of the text; the first error is the one
kept (`saveError`), decoding goes on after it. -/
def storeEntries (dev : Device) : List (Bytes × Value) → Device × Option UnmarshalError
  | [] => (dev, none)
  | (k, v) :: rest =>
    let (dev1, e1) := storeEntry dev k v
    let (dev2, e2) := storeEntries dev1 rest
    (dev2, e1.orElse fun _ => e2)

/-- The decoding `json.Unmarshal([]byte(text), &dev)`: the struct afterwards and the
error returned. Text that is not valid JSON leaves `dev` untouched. Valid text
has a value (`decodeValue_of_valid`), so the case `none` stands for nothing
Go does. -/
def unmarshalDevice (text : Bytes) (dev : Device) : Device × Option UnmarshalError :=
  if checkValid text then
    match decodeValue text with
    | some (.obj entries) => storeEntries dev entries
    | some .null => (dev, none)
    | some _ => (dev, some .typeError)
    | none => (dev, some .syntaxError)
  else (dev, some .syntaxError)

/-- What the embedding takes as given about `float64`: whether
`strconv.ParseFloat(lit, 64)` reports a range error for a number literal, and
the text `%v` prints for the `float64` it yields. -/
structure FloatLib where
  rangeError : Bytes → Bool
  formatV : Bytes → Bytes

/-- Whether every number in the value converts to a `float64`
(`convertNumber` saves an error otherwise). -/
def numbersOk (fl : FloatLib) : Value → Bool
  | .null => true
  | .bool _ => true
  | .num lit => !fl.rangeError lit
  | .str _ => true
  | .arr elems => allOk elems
  | .obj entries => entriesOk entries
where
  allOk : List Value → Bool
    | [] => true
    | v :: rest => numbersOk fl v && allOk rest
  entriesOk : List (Bytes × Value) → Bool
    | [] => true
    | (_, v) :: rest => numbersOk fl v && entriesOk rest

/-- Set a key of a map: `m[k] = v`. -/
def mapSet {α : Type} (m : List (Bytes × α)) (k : Bytes) (v : α) : List (Bytes × α) :=
  match m with
  | [] => [(k, v)]
  | (k1, v1) :: rest => if k1 = k then (k, v) :: rest else (k1, v1) :: mapSet rest k v

/-- The map an object's entries make: a repeated key keeps its last value. -/
def toMap {α : Type} (entries : List (Bytes × α)) : List (Bytes × α) :=
  entries.foldl (fun m kv => mapSet m kv.1 kv.2) []

/-- The decoding `json.Unmarshal([]byte(s), &data)` for `var data map[string]interface{}`:
the map afterwards (`null` leaves it nil, which has length 0 like the empty
map), or the error: a syntax error for text that is not valid JSON, a type
error for a value that is no object and for a number out of range. -/
def unmarshalMap (fl : FloatLib) (s : Bytes) : Except UnmarshalError (List (Bytes × Value)) :=
  if checkValid s then
    match decodeValue s with
    | some (.obj entries) =>
      if numbersOk fl (.obj entries) then .ok (toMap entries) else .error .typeError
    | some .null => .ok []
    | some _ => .error .typeError
    | none => .error .syntaxError
  else .error .syntaxError

/-! ## fmt: `Sprintf` with `%s` -/

/-- What `%s` prints for an operand it does not apply to (`badVerb`):
`%!s(type=value)`, the value as `%v` prints it. -/
def badVerb (type : String) (v : Bytes) : Bytes :=
  bytes "%!s(" ++ bytes type ++ bytes "=" ++ v ++ bytes ")"

/-- Order of Go strings: byte by byte. -/
def bytesLe : Bytes → Bytes → Bool
  | [], _ => true
  | _ :: _, [] => false
  | a :: as, b :: bs => a < b || (a = b && bytesLe as bs)

def insertByKey (e : Bytes × Bytes) : List (Bytes × Bytes) → List (Bytes × Bytes)
  | [] => [e]
  | e1 :: rest => if bytesLe e.1 e1.1 then e :: e1 :: rest else e1 :: insertByKey e rest

/-- Map entries in the order `fmt` prints them: sorted by key. -/
def sortByKey (m : List (Bytes × Bytes)) : List (Bytes × Bytes) :=
  m.foldr insertByKey []

def joinWith (sep : Bytes) : List Bytes → Bytes
  | [] => []
  | [x] => x
  | x :: y :: rest => x ++ sep ++ joinWith sep (y :: rest)

/-- What `%s` prints for a value inside a slice or map, and for a slice or map
itself (`printValue`). -/
def printValue (fl : FloatLib) : Value → Bytes
  | .null => bytes "<nil>"
  | .bool b => badVerb "bool" (bytes (if b then "true" else "false"))
  | .num lit => badVerb "float64" (fl.formatV lit)
  | .str s => s
  | .arr elems => bytes "[" ++ joinWith (bytes " ") (printAll elems) ++ bytes "]"
  | .obj entries =>
    bytes "map[" ++
      joinWith (bytes " ")
        ((sortByKey (toMap (printEntries entries))).map fun kv => kv.1 ++ bytes ":" ++ kv.2)
      ++ bytes "]"
where
  printAll : List Value → List Bytes
    | [] => []
    | v :: rest => printValue fl v :: printAll rest
  printEntries : List (Bytes × Value) → List (Bytes × Bytes)
    | [] => []
    | (k, v) :: rest => (k, printValue fl v) :: printEntries rest

/-- The string `fmt.Sprintf("%s", v)` for a value `v` of the decoded map: a string is
printed as it is; a number, a boolean and nil are not strings and are printed
as `%!s(float64=…)`, `%!s(bool=…)`, `%!s(<nil>)`. -/
def sprintS (fl : FloatLib) (v : Value) : Bytes :=
  match v with
  | .null => bytes "%!s(<nil>)"
  | _ => printValue fl v

/-! ## The program -/

/-- The order in which one `range` loop walks the entries of a map: some
permutation of them. -/
structure RangeOrder where
  walk : List (Bytes × Value) → List (Bytes × Value)
  perm : ∀ m, (walk m).Perm m

/-- What `parseMsg` does to its buffer `payloadSlice` and to the channel:
assign element `i`, or send the slice. Every send hands over the same
buffer, the one `make` returned. -/
inductive Event
  | store (i : Nat) (s : Bytes)
  | send
  deriving DecidableEq, Repr

/-- One call of `parseMsg`: what it did, in order, and whether it ended in a
panic. -/
structure Run where
  events : List Event
  panicked : Bool
  deriving DecidableEq, Repr

/-- The decoding of the envelope in `parseMsg`: `dev := Device{}` and
`json.Unmarshal([]byte(text), &dev)`, whose error is dropped. -/
def envelope (text : Bytes) : Device := (unmarshalDevice text {}).1

/-- The string `fmt.Sprintf("/mibridge/%s/%s/%s", model, sid, field)`. -/
def fieldTopic (model sid field : Bytes) : Bytes :=
  bytes "/mibridge/" ++ model ++ bytes "/" ++ sid ++ bytes "/" ++ field

/-- The string `fmt.Sprintf("/mibridge/%s/%s", model, sid)`. -/
def deviceTopic (model sid : Bytes) : Bytes :=
  bytes "/mibridge/" ++ model ++ bytes "/" ++ sid

/-- The function `parseMsg(text, c)`. -/
def parseMsg (fl : FloatLib) (ord : RangeOrder) (text : Bytes) : Run :=
  let dev := envelope text
  match unmarshalMap fl dev.Data with
  | .error _ => ⟨[], true⟩
  | .ok data =>
    if data.length > 0 then
      ⟨(ord.walk data).flatMap fun iv =>
          [.store 0 (fieldTopic dev.Model dev.Sid iv.1), .store 1 (sprintS fl iv.2), .send],
        false⟩
    else
      ⟨[.store 0 (deviceTopic dev.Model dev.Sid), .send], false⟩

/-- A message: topic and payload. -/
abbrev Message := Bytes × Bytes

/-- The buffer after the events, from the contents `buf`. -/
def bufferAfter (buf : Message) : List Event → Message
  | [] => buf
  | .store 0 s :: rest => bufferAfter (s, buf.2) rest
  | .store 1 s :: rest => bufferAfter (buf.1, s) rest
  | _ :: rest => bufferAfter buf rest

/-- The contents of the buffer at each send, in order, from the contents `buf`. -/
def sentFrom (buf : Message) : List Event → List Message
  | [] => []
  | .store 0 s :: rest => sentFrom (s, buf.2) rest
  | .store 1 s :: rest => sentFrom (buf.1, s) rest
  | .store _ _ :: rest => sentFrom buf rest
  | .send :: rest => buf :: sentFrom buf rest

/-- The messages a run sent: `make([]string, 2, 2)` starts the buffer as two
empty strings. -/
def Run.sent (r : Run) : List Message := sentFrom ([], []) r.events

/-- One return of `p.ReadFrom(buf)`: the bytes `buf[0:n]` and whether `err` is
not nil. -/
structure ReadResult where
  text : Bytes
  err : Bool
  deriving DecidableEq, Repr

/-- What the receive loop lets out: a message handed to the channel, with the
contents it has at that moment, or a line `Error: …` in the log. -/
inductive Output
  | message (m : Message)
  | logError
  deriving DecidableEq, Repr

/-- The receive loop over the reads it gets: its output, how many reads it
took, and whether it ended in a panic. -/
structure LoopRun where
  out : List Output
  reads : Nat
  crashed : Bool
  deriving DecidableEq, Repr

/-- The loop of `Multicast.Start`,
`for { n, _, _, err := p.ReadFrom(buf); parseMsg(string(buf[0:n]), ch); if err != nil { log.Println("Error: ", err) } }`,
on the reads that come; `ord k` is the order of the map walk in round `k`.
`parseMsg` runs before `err` is looked at, and a panic of `parseMsg` ends the
process. -/
def Multicast.Start (fl : FloatLib) (ord : Nat → RangeOrder) (k : Nat) :
    List ReadResult → LoopRun
  | [] => ⟨[], 0, false⟩
  | r :: rest =>
    let run := parseMsg fl (ord k) r.text
    let sent := run.sent.map Output.message
    if run.panicked then ⟨sent, 1, true⟩
    else
      let logged := if r.err then [Output.logError] else []
      let later := Multicast.Start fl ord (k + 1) rest
      ⟨sent ++ logged ++ later.out, later.reads + 1, later.crashed⟩

/-- What the receive loop does to its buffers and to the channel, in order, each
step with the round of the loop it belongs to: every call of `parseMsg` makes
a buffer of its own, so the round names the buffer. -/
def Multicast.trace (fl : FloatLib) (ord : Nat → RangeOrder) (k : Nat) :
    List ReadResult → List (Nat × Event)
  | [] => []
  | r :: rest =>
    let run := parseMsg fl (ord k) r.text
    run.events.map (fun e => (k, e)) ++
      (if run.panicked then [] else Multicast.trace fl ord (k + 1) rest)

/-- The contents of buffer `b` after the steps of `trace`. -/
def bufferOf (b : Nat) (trace : List (Nat × Event)) : Message :=
  bufferAfter ([], []) ((trace.filter fun e => e.1 = b).map fun e => e.2)

/-- A call `client.Publish(topic, 0, false, payload)`. -/
structure Publish where
  topic : Bytes
  qos : Nat
  retained : Bool
  payload : Bytes
  deriving DecidableEq, Repr

/-- When the publish loop reads a slice it has received: how many further
steps of the sender have passed when it reads `payloadSlice[0]`, and how many
when it reads `payloadSlice[1]`. The channel is unbuffered, so the sender goes
on as soon as the slice is taken, and at most up to its next send. -/
structure Reading where
  topicAfter : Nat
  payloadAfter : Nat

/-- The loop of `Mqtt.Connect`,
`for { payloadSlice = <-c; client.Publish(payloadSlice[0], 0, false, payloadSlice[1]) }`,
against the steps of the sender: `past` are the steps done, message `j` is
read as `sched j` says. The slice received is the sender's buffer itself, so
what is published is what the buffer holds at the time of each read; the
topic is read first. -/
def Mqtt.Connect (sched : Nat → Reading) (j : Nat) (past : List (Nat × Event)) :
    List (Nat × Event) → List Publish
  | [] => []
  | (b, .send) :: rest =>
    let window := rest.takeWhile fun e => e.2 ≠ Event.send
    let t0 := min (sched j).topicAfter window.length
    let t1 := min (max t0 (sched j).payloadAfter) window.length
    ⟨(bufferOf b (past ++ window.take t0)).1, 0, false,
      (bufferOf b (past ++ window.take t1)).2⟩ ::
      Mqtt.Connect sched (j + 1) (past ++ [(b, .send)]) rest
  | e :: rest => Mqtt.Connect sched j (past ++ [e]) rest

/-- The reader that reads each slice at once, before the sender goes on. -/
def promptReader : Nat → Reading := fun _ => ⟨0, 0⟩

/-- The reader that reads each slice when the sender has gone on to its next
send (as when the sender keeps running after the hand-over, which the
scheduler allows). -/
def lateReader : Nat → Reading := fun _ => ⟨2, 2⟩

/-- The messages among the outputs of the receive loop, in order. -/
def messagesOf : List Output → List Message
  | [] => []
  | .message m :: rest => m :: messagesOf rest
  | .logError :: rest => messagesOf rest

/-! ## What the scanner and the decoder hold at the same time -/

/-- The text between the quotes of a string literal, as far as it is made of
whole units: plain bytes, one-letter escapes, `\u` escapes. -/
inductive StrOk : Bytes → Prop
  | nil : StrOk []
  | plain {c : Nat} {rest : Bytes} :
      c ≠ 0x22 → c ≠ 0x5C → 0x20 ≤ c → StrOk rest → StrOk (c :: rest)
  | esc {e : Nat} {rest : Bytes} : isSimpleEsc e = true → StrOk rest → StrOk (0x5C :: e :: rest)
  | uni {h1 h2 h3 h4 : Nat} {rest : Bytes} :
      isHex h1 = true → isHex h2 = true → isHex h3 = true → isHex h4 = true → StrOk rest →
      StrOk (0x5C :: ch 'u' :: h1 :: h2 :: h3 :: h4 :: rest)

/-- The begun escape the scanner is in the middle of, by its step. -/
inductive Begun : Step → Bytes → Prop
  | str : Begun .inString []
  | esc : Begun .inStringEsc [0x5C]
  | u0 : Begun .inStringEscU [0x5C, ch 'u']
  | u1 {h1 : Nat} : isHex h1 = true → Begun .inStringEscU1 [0x5C, ch 'u', h1]
  | u2 {h1 h2 : Nat} : isHex h1 = true → isHex h2 = true →
      Begun .inStringEscU12 [0x5C, ch 'u', h1, h2]
  | u3 {h1 h2 h3 : Nat} : isHex h1 = true → isHex h2 = true → isHex h3 = true →
      Begun .inStringEscU123 [0x5C, ch 'u', h1, h2, h3]

/-- A string literal being read in step `st`: the opening quote, whole units,
and the begun escape. `item` has the last byte first. -/
def StrLit (st : Step) (item : Bytes) : Prop :=
  ∃ units part, item.reverse = 0x22 :: (units ++ part) ∧ StrOk units ∧ Begun st part

/-- A first byte of a number, of `true`, `false` or `null`. -/
def startsScalar (c : Nat) : Bool :=
  c = ch 'n' || c = ch 't' || c = ch 'f' || c = ch '-' || isDigit c

/-- A number or a keyword being read. -/
def ScalarLit (item : Bytes) : Prop :=
  ∃ c0 tl, item.reverse = c0 :: tl ∧ startsScalar c0 = true

/-- The steps inside a number or a keyword. -/
def isScalarStep : Step → Bool
  | .neg | .one | .zero | .dot | .dot0 | .e | .eSign | .e0
  | .t | .tr | .tru | .f | .fa | .fal | .fals | .n | .nu | .nul => true
  | _ => false

/-- An open array or object that waits for a value, and the scanner's entry
for it. -/
inductive Waits : Frame → ParseState → Prop
  | arr (elems : List Value) : Waits (.arr elems) .parseArrayValue
  | obj (entries : List (Bytes × Value)) (k : Bytes) :
      Waits (.obj entries (some k)) .parseObjectValue

/-- An open array or object right after one of its items, and the scanner's
entry for it. -/
inductive After : Frame → ParseState → Prop
  | arr (elems : List Value) : After (.arr elems) .parseArrayValue
  | obj (entries : List (Bytes × Value)) : After (.obj entries none) .parseObjectValue
  | key (entries : List (Bytes × Value)) (k : Bytes) :
      After (.obj entries (some k)) .parseObjectKey

/-- The open arrays and objects and the scanner's entries, where a literal or
value is read: as a value, or as the key of the innermost object. -/
inductive Slot : List Frame → List ParseState → Prop
  | value {fs : List Frame} {ps : List ParseState} : List.Forall₂ Waits fs ps → Slot fs ps
  | key {entries : List (Bytes × Value)} {fs : List Frame} {ps : List ParseState} :
      List.Forall₂ Waits fs ps → Slot (.obj entries none :: fs) (.parseObjectKey :: ps)

/-- The decoder right after a value: nothing open and a result, or the
innermost array or object right after one of its items. -/
inductive Settled : List ParseState → Decoder → Prop
  | top (v : Value) : Settled [] ⟨none, [], some v, false⟩
  | inner {f : Frame} {p : ParseState} {fs : List Frame} {ps : List ParseState}
      (res : Option Value) :
      After f p → List.Forall₂ Waits fs ps → Settled (p :: ps) ⟨none, f :: fs, res, false⟩

/-- What holds of the scanner and the decoder after the same bytes, as long as
the scanner has recorded no error. -/
inductive Inv : Scanner → Decoder → Prop
  | start {st : Step} {fs : List Frame} {ps : List ParseState} (res : Option Value) :
      (st = .beginValue ∨ (st = .beginValueOrEmpty ∧ ∃ ps1, ps = .parseArrayValue :: ps1)) →
      List.Forall₂ Waits fs ps → Inv ⟨st, ps, false, false⟩ ⟨none, fs, res, false⟩
  | startKey {st : Step} {entries : List (Bytes × Value)} {fs : List Frame}
      {ps : List ParseState} (res : Option Value) :
      (st = .beginStringOrEmpty ∨ st = .beginString) →
      List.Forall₂ Waits fs ps →
      Inv ⟨st, .parseObjectKey :: ps, false, false⟩ ⟨none, .obj entries none :: fs, res, false⟩
  | inStr {st : Step} {item : Bytes} {fs : List Frame} {ps : List ParseState}
      (res : Option Value) :
      StrLit st item → Slot fs ps → Inv ⟨st, ps, false, false⟩ ⟨some item, fs, res, false⟩
  | inScalar {st : Step} {item : Bytes} {fs : List Frame} {ps : List ParseState}
      (res : Option Value) :
      isScalarStep st = true → ScalarLit item → List.Forall₂ Waits fs ps →
      Inv ⟨st, ps, false, false⟩ ⟨some item, fs, res, false⟩
  | done {ps : List ParseState} {d : Decoder} :
      Settled ps d.endLiteral → Inv ⟨.endValue, ps, false, false⟩ d
  | top (v : Value) : Inv ⟨.endTop, [], true, false⟩ ⟨none, [], some v, false⟩
  | failed (ps : List ParseState) (et : Bool) (d : Decoder) : Inv ⟨.error, ps, et, true⟩ d

/-! ## Kinds of data string -/

/-- Whether `s` decodes as a JSON object: it is valid JSON and its value is an
object. -/
def decodesAsObject (s : Bytes) : Bool :=
  checkValid s &&
    match decodeValue s with
    | some (.obj _) => true
    | _ => false

/-- Whether the value of `s` holds, at any depth, a number that does not
convert to a `float64`. -/
def holdsNumberOutOfRange (fl : FloatLib) (s : Bytes) : Bool :=
  match decodeValue s with
  | some v => !numbersOk fl v
  | none => false

/-- Whether `s` is the JSON literal `null`, spaces around it apart. -/
def decodesAsNull (s : Bytes) : Bool :=
  checkValid s &&
    match decodeValue s with
    | some .null => true
    | _ => false

/-- Whether `s` is valid JSON of another kind: an array, a string, a number or
a boolean. -/
def isOtherKind (s : Bytes) : Bool :=
  checkValid s &&
    match decodeValue s with
    | some (.arr _) => true
    | some (.str _) => true
    | some (.num _) => true
    | some (.bool _) => true
    | _ => false

/-! ## Sample inputs -/

/-- A stand-in for the float library in worked examples: no range error, and a
number prints as its literal. It agrees with Go on short integer literals such
as `1` and `5`, the only numbers in the examples. -/
def literalFloat : FloatLib := ⟨fun _ => false, fun lit => lit⟩

/-- A stand-in for the float library that reports the range error of
`strconv.ParseFloat` for the literal `1e999`, which lies beyond the largest
`float64` (about `1.8e308`), and for no other literal. It is used on that
literal only. -/
def overflowFloat : FloatLib := ⟨fun lit => lit = bytes "1e999", fun lit => lit⟩

/-- A map walk in the order of the text. -/
def textOrder : RangeOrder := ⟨fun m => m, fun _ => List.Perm.refl _⟩

/-- A map walk in the reverse order of the text. -/
def reverseOrder : RangeOrder := ⟨List.reverse, List.reverse_perm⟩

/-- The datagram `{"model":"m","sid":"s","data":"{\"a\":1,\"b\":\"x\"}"}`. -/
def datagramNumber : Bytes :=
  bytes "\x7b\"model\":\"m\",\"sid\":\"s\",\"data\":\"\x7b\\\"a\\\":1,\\\"b\\\":\\\"x\\\"\x7d\"\x7d"

/-- The datagram `{"model":"m","sid":"s","data":"{\"a\":\"1\",\"b\":\"x\"}"}`. -/
def datagramStrings : Bytes :=
  bytes "\x7b\"model\":\"m\",\"sid\":\"s\",\"data\":\"\x7b\\\"a\\\":\\\"1\\\",\\\"b\\\":\\\"x\\\"\x7d\"\x7d"

/-- The datagram `{"model":"n","sid":"t","data":"{\"c\":\"y\"}"}`. -/
def datagramOther : Bytes :=
  bytes "\x7b\"model\":\"n\",\"sid\":\"t\",\"data\":\"\x7b\\\"c\\\":\\\"y\\\"\x7d\"\x7d"

/-- The datagram `{"model":"m","sid":"s"}`: no data. -/
def datagramNoData : Bytes :=
  bytes "\x7b\"model\":\"m\",\"sid\":\"s\"\x7d"

/-- The datagram `{"model":"m","sid":"s","data":""}`: empty data. -/
def datagramEmptyData : Bytes :=
  bytes "\x7b\"model\":\"m\",\"sid\":\"s\",\"data\":\"\"\x7d"

/-- The datagram `{"model":"m","sid":"s","data":"{}"}`: a mapping with no entries. -/
def datagramEmptyObject : Bytes :=
  bytes "\x7b\"model\":\"m\",\"sid\":\"s\",\"data\":\"\x7b\x7d\"\x7d"

/-- The datagram `{"model":"m","sid":"s","data":"{\"a\":"}`: data cut short. -/
def datagramBadData : Bytes :=
  bytes "\x7b\"model\":\"m\",\"sid\":\"s\",\"data\":\"\x7b\\\"a\\\":\"\x7d"

/-- The datagram `{"model":"m","sid":"s","data":"[1]"}`: data is an array. -/
def datagramArrayData : Bytes :=
  bytes "\x7b\"model\":\"m\",\"sid\":\"s\",\"data\":\"[1]\"\x7d"

/-- The datagram `{"model":"m","sid":"s","data":"5"}`: data is a number. -/
def datagramNumberData : Bytes :=
  bytes "\x7b\"model\":\"m\",\"sid\":\"s\",\"data\":\"5\"\x7d"

/-- The datagram `{"model":"m","sid":"s","data":"{\"a\":1e999}"}`: data is an
object with a number beyond the range of `float64`. -/
def datagramHugeNumber : Bytes :=
  bytes "\x7b\"model\":\"m\",\"sid\":\"s\",\"data\":\"\x7b\\\"a\\\":1e999\x7d\"\x7d"

/-- A datagram that is not JSON. -/
def datagramGarbage : Bytes := bytes "not json"

/-! # Theorems -/

set_option maxRecDepth 100000

/-! ## Shared lemmas -/

theorem unmarshalMap_empty (fl : FloatLib) : unmarshalMap fl [] = .error .syntaxError := by
  rfl

theorem envelope_of_invalid {text : Bytes} (h : checkValid text = false) :
    envelope text = {} := by
  simp [envelope, unmarshalDevice, h]

theorem parseMsg_of_error {fl : FloatLib} {ord : RangeOrder} {text : Bytes} {e : UnmarshalError}
    (h : unmarshalMap fl (envelope text).Data = .error e) :
    parseMsg fl ord text = ⟨[], true⟩ := by
  simp [parseMsg, h]

theorem parseMsg_of_empty {fl : FloatLib} {ord : RangeOrder} {text : Bytes}
    (h : unmarshalMap fl (envelope text).Data = .ok []) :
    parseMsg fl ord text =
      ⟨[.store 0 (deviceTopic (envelope text).Model (envelope text).Sid), .send], false⟩ := by
  simp [parseMsg, h]

theorem parseMsg_of_entries {fl : FloatLib} {ord : RangeOrder} {text : Bytes}
    {data : List (Bytes × Value)} (h : unmarshalMap fl (envelope text).Data = .ok data)
    (hne : data ≠ []) :
    parseMsg fl ord text =
      ⟨(ord.walk data).flatMap fun iv =>
          [.store 0 (fieldTopic (envelope text).Model (envelope text).Sid iv.1),
           .store 1 (sprintS fl iv.2), .send],
        false⟩ := by
  have hpos : 0 < data.length := List.length_pos.mpr hne
  simp [parseMsg, h, hpos]

theorem sentFrom_fanOut (fl : FloatLib) (model sid : Bytes) (l : List (Bytes × Value))
    (buf : Message) :
    sentFrom buf (l.flatMap fun iv =>
        [.store 0 (fieldTopic model sid iv.1), .store 1 (sprintS fl iv.2), .send])
      = l.map fun iv => (fieldTopic model sid iv.1, sprintS fl iv.2) := by
  induction l generalizing buf with
  | nil => rfl
  | cons iv rest ih =>
    rw [List.flatMap_cons]
    simp only [List.cons_append, List.nil_append, sentFrom, List.map_cons]
    exact congrArg _ (ih _)

theorem panicked_iff_error (fl : FloatLib) (ord : RangeOrder) (text : Bytes) :
    (parseMsg fl ord text).panicked = true ↔
      ∃ e, unmarshalMap fl (envelope text).Data = .error e := by
  cases h : unmarshalMap fl (envelope text).Data with
  | error e => simp [parseMsg_of_error h]
  | ok data =>
    by_cases hne : data = []
    · subst hne; simp [parseMsg_of_empty h]
    · simp [parseMsg_of_entries h hne]

theorem parseMsg_of_empty_data {fl : FloatLib} {ord : RangeOrder} {text : Bytes}
    (h : (envelope text).Data = []) :
    parseMsg fl ord text = ⟨[], true⟩ :=
  parseMsg_of_error (e := .syntaxError) (by rw [h]; exact unmarshalMap_empty fl)

/-- The messages of a run over a map with entries are, in some order, one per
entry of the map. -/
theorem sent_perm_of_ok {fl : FloatLib} (ord : RangeOrder) {text : Bytes}
    {data : List (Bytes × Value)} (h : unmarshalMap fl (envelope text).Data = .ok data)
    (hne : data ≠ []) :
    (parseMsg fl ord text).sent.Perm
      (data.map fun iv =>
        (fieldTopic (envelope text).Model (envelope text).Sid iv.1, sprintS fl iv.2)) := by
  rw [parseMsg_of_entries h hne]
  simp only [Run.sent]
  rw [sentFrom_fanOut]
  exact (ord.perm data).map _

/-- Storing entries none of which names the field `data` leaves `Data` as it was. -/
theorem storeEntries_keeps_data (entries : List (Bytes × Value)) (dev : Device)
    (h : ∀ kv ∈ entries, findField kv.1 ≠ some .data) :
    (storeEntries dev entries).1.Data = dev.Data := by
  induction entries generalizing dev with
  | nil => rfl
  | cons kv rest ih =>
    obtain ⟨k, v⟩ := kv
    have hk : findField k ≠ some .data := h (k, v) (List.mem_cons_self _ _)
    have hrest : ∀ kv ∈ rest, findField kv.1 ≠ some .data :=
      fun kv hkv => h kv (List.mem_cons_of_mem _ hkv)
    have hone : (storeEntry dev k v).1.Data = dev.Data := by
      unfold storeEntry
      cases hf : findField k with
      | none => rfl
      | some f =>
        have hfd : f ≠ .data := fun hfe => hk (by rw [hf, hfe])
        cases v <;> cases f <;> simp_all [Device.set]
    simp only [storeEntries]
    rw [ih _ hrest, hone]

/-- An envelope text that is a JSON object without a key for the field `data`
leaves the data of the envelope empty. -/
theorem envelope_data_absent {text : Bytes} {entries : List (Bytes × Value)}
    (hv : checkValid text = true) (hd : decodeValue text = some (.obj entries))
    (h : ∀ kv ∈ entries, findField kv.1 ≠ some .data) :
    (envelope text).Data = [] := by
  simp only [envelope, unmarshalDevice, hv, hd, if_true]
  exact storeEntries_keeps_data entries {} h

theorem panicked_order_free (fl : FloatLib) (ord1 ord2 : RangeOrder) (text : Bytes) :
    (parseMsg fl ord1 text).panicked = (parseMsg fl ord2 text).panicked := by
  cases h : unmarshalMap fl (envelope text).Data with
  | error e => simp [parseMsg_of_error h]
  | ok data =>
    by_cases hne : data = []
    · subst hne; simp [parseMsg_of_empty h]
    · simp [parseMsg_of_entries h hne]

theorem sent_order_free (fl : FloatLib) (ord1 ord2 : RangeOrder) (text : Bytes) :
    (parseMsg fl ord1 text).sent.Perm (parseMsg fl ord2 text).sent := by
  cases h : unmarshalMap fl (envelope text).Data with
  | error e => simp [parseMsg_of_error h]
  | ok data =>
    by_cases hne : data = []
    · subst hne; simp [parseMsg_of_empty h]
    · exact (sent_perm_of_ok ord1 h hne).trans (sent_perm_of_ok ord2 h hne).symm

theorem messagesOf_append (a b : List Output) :
    messagesOf (a ++ b) = messagesOf a ++ messagesOf b := by
  induction a with
  | nil => rfl
  | cons x rest ih => cases x <;> simp [messagesOf, ih]

theorem messagesOf_messages (l : List Message) :
    messagesOf (l.map Output.message) = l := by
  induction l with
  | nil => rfl
  | cons x rest ih => simp [messagesOf, ih]

/-! ## The publish loop against the steps of the sender -/

theorem bufferAfter_append (buf : Message) (a b : List Event) :
    bufferAfter buf (a ++ b) = bufferAfter (bufferAfter buf a) b := by
  induction a generalizing buf with
  | nil => rfl
  | cons e rest ih =>
    cases e with
    | send => simpa [bufferAfter] using ih buf
    | store i s =>
      match i with
      | 0 => simpa [bufferAfter] using ih _
      | 1 => simpa [bufferAfter] using ih _
      | n + 2 => simpa [bufferAfter] using ih _

theorem bufferOf_snoc (b : Nat) (past : List (Nat × Event)) (e : Event) :
    bufferOf b (past ++ [(b, e)]) = bufferAfter (bufferOf b past) [e] := by
  simp [bufferOf, List.filter_append, bufferAfter_append]

theorem bufferOf_of_earlier (b : Nat) (past : List (Nat × Event))
    (h : ∀ e ∈ past, e.1 < b) : bufferOf b past = ([], []) := by
  have : past.filter (fun e => e.1 = b) = [] := by
    rw [List.filter_eq_nil_iff]
    intro e he
    have := h e he
    simp; omega
  simp [bufferOf, this, bufferAfter]

/-- One round against the reader that reads at once: it publishes what the
buffer holds at each send. -/
theorem Connect_prompt_round (k j : Nat) (es : List Event) (tail : List (Nat × Event)) :
    ∀ past : List (Nat × Event),
    (Mqtt.Connect promptReader j past (es.map (fun e => (k, e)) ++ tail)).map
        (fun p => (p.topic, p.payload)) =
      sentFrom (bufferOf k past) es ++
        (Mqtt.Connect promptReader (j + (sentFrom (bufferOf k past) es).length)
          (past ++ es.map (fun e => (k, e))) tail).map (fun p => (p.topic, p.payload)) := by
  induction es generalizing j with
  | nil => intro past; simp [sentFrom]
  | cons e rest ih =>
    intro past
    cases e with
    | send =>
      have := ih (j + 1) (past ++ [(k, Event.send)])
      rw [bufferOf_snoc] at this
      simp only [bufferAfter] at this
      simp only [List.map_cons, List.cons_append, Mqtt.Connect, promptReader, sentFrom,
        List.length_cons]
      simp [this, Nat.add_assoc, Nat.add_comm 1]
    | store i s =>
      have := ih j (past ++ [(k, Event.store i s)])
      rw [bufferOf_snoc] at this
      match i with
      | 0 =>
        simp only [bufferAfter] at this
        simp only [List.map_cons, List.cons_append, Mqtt.Connect, sentFrom]
        simpa using this
      | 1 =>
        simp only [bufferAfter] at this
        simp only [List.map_cons, List.cons_append, Mqtt.Connect, sentFrom]
        simpa using this
      | n + 2 =>
        simp only [bufferAfter] at this
        simp only [List.map_cons, List.cons_append, Mqtt.Connect, sentFrom]
        simpa using this

/-- Against the reader that reads each slice at once, the publish loop
publishes the messages of the receive loop as they were at their send. -/
theorem Connect_prompt (fl : FloatLib) (ord : Nat → RangeOrder) (reads : List ReadResult) :
    ∀ (k j : Nat) (past : List (Nat × Event)), (∀ e ∈ past, e.1 < k) →
    (Mqtt.Connect promptReader j past (Multicast.trace fl ord k reads)).map
        (fun p => (p.topic, p.payload)) =
      messagesOf (Multicast.Start fl ord k reads).out := by
  induction reads with
  | nil => intro k j past _; simp [Multicast.trace, Multicast.Start, Mqtt.Connect, messagesOf]
  | cons r rest ih =>
    intro k j past hp
    simp only [Multicast.trace, Multicast.Start]
    rw [Connect_prompt_round, bufferOf_of_earlier k past hp]
    by_cases hpan : (parseMsg fl (ord k) r.text).panicked = true
    · simp [hpan, Mqtt.Connect, messagesOf_messages, Run.sent]
    · simp only [hpan, Bool.false_eq_true, if_false]
      rw [ih (k + 1) _ _ (by
        intro e he
        rcases List.mem_append.mp he with h | h
        · exact Nat.lt_succ_of_lt (hp e h)
        · obtain ⟨x, _, rfl⟩ := List.mem_map.mp h
          exact Nat.lt_succ_self k)]
      rw [messagesOf_append, messagesOf_append, messagesOf_messages]
      cases r.err <;> simp [messagesOf, Run.sent]

/-! ## The decoder on valid text -/

theorem unquoteBody_skip (k : Nat) (l : Bytes) : unquoteBody k l = unquoteBody 0 (l.drop k) := by
  induction l generalizing k with
  | nil => cases k <;> simp [unquoteBody]
  | cons c rest ih =>
    cases k with
    | zero => rfl
    | succ k => simp [unquoteBody, ih k]

theorem StrOk_append {a b : Bytes} (ha : StrOk a) (hb : StrOk b) : StrOk (a ++ b) := by
  induction ha with
  | nil => simpa using hb
  | plain h1 h2 h3 _ ih => exact StrOk.plain h1 h2 h3 ih
  | esc h1 _ ih => exact StrOk.esc h1 ih
  | uni h1 h2 h3 h4 _ ih => exact StrOk.uni h1 h2 h3 h4 ih

theorem second3_high {c c1 : Nat} (h : second3 c c1 = true) : 0x80 ≤ c1 := by
  unfold second3 at h
  simp only [Bool.and_eq_true, decide_eq_true_eq] at h
  obtain ⟨hlo, _⟩ := h
  split_ifs at hlo <;> omega

theorem second4_high {c c1 : Nat} (h : second4 c c1 = true) : 0x80 ≤ c1 := by
  unfold second4 at h
  simp only [Bool.and_eq_true, decide_eq_true_eq] at h
  obtain ⟨hlo, _⟩ := h
  split_ifs at hlo <;> omega

theorem isCont_high {c : Nat} (h : isCont c = true) : 0x80 ≤ c := by
  unfold isCont at h
  simp only [Bool.and_eq_true, decide_eq_true_eq] at h
  exact h.1

theorem runeLen_take {c : Nat} {rest : Bytes} {n : Nat}
    (h : runeLen (c :: rest) = n + 1) (hc : 0x80 ≤ c) : ∀ x ∈ rest.take n, 0x80 ≤ x := by
  unfold runeLen at h
  simp only at h
  split_ifs at h with h1 h2 h3 h4 h5
  · omega
  · match rest, h with
    | [], h => simp at h
    | c1 :: r, h =>
      simp only at h
      split_ifs at h with hh
      have : n = 1 := by omega
      subst this
      intro x hx
      simp only [List.take_succ_cons, List.take_zero, List.mem_singleton] at hx
      subst hx
      exact isCont_high hh
  · match rest, h with
    | [], h => simp at h
    | [_], h => simp at h
    | c1 :: c2 :: r, h =>
      simp only at h
      split_ifs at h with hh
      simp only [Bool.and_eq_true] at hh
      have : n = 2 := by omega
      subst this
      intro x hx
      simp only [List.take_succ_cons, List.take_zero, List.mem_cons, List.mem_singleton,
        List.not_mem_nil, or_false] at hx
      rcases hx with rfl | rfl
      · exact second3_high hh.1
      · exact isCont_high hh.2
  · match rest, h with
    | [], h => simp at h
    | [_], h => simp at h
    | [_, _], h => simp at h
    | c1 :: c2 :: c3 :: r, h =>
      simp only at h
      split_ifs at h with hh
      simp only [Bool.and_eq_true] at hh
      have : n = 3 := by omega
      subst this
      intro x hx
      simp only [List.take_succ_cons, List.take_zero, List.mem_cons, List.mem_singleton,
        List.not_mem_nil, or_false] at hx
      rcases hx with rfl | rfl | rfl
      · exact second4_high hh.1.1
      · exact isCont_high hh.1.2
      · exact isCont_high hh.2

theorem StrOk_drop_high {l : Bytes} (n : Nat) (hl : StrOk l)
    (h : ∀ x ∈ l.take n, 0x80 ≤ x) : StrOk (l.drop n) := by
  induction n generalizing l with
  | zero => simpa using hl
  | succ n ih =>
    cases hl with
    | nil => simpa using StrOk.nil
    | plain _ _ _ hrest =>
      simp only [List.drop_succ_cons]
      exact ih hrest (fun x hx => h x (by simp [List.take_succ_cons, hx]))
    | esc _ _ =>
      have := h 0x5C (by simp [List.take_succ_cons])
      omega
    | uni _ _ _ _ _ =>
      have := h 0x5C (by simp [List.take_succ_cons])
      omega

theorem not_simple_u : isSimpleEsc (ch 'u') = false := by decide

theorem escapeByte_of_simple {e : Nat} (h : isSimpleEsc e = true) : ∃ b, escapeByte e = some b := by
  unfold isSimpleEsc at h
  simp only [Bool.or_eq_true, decide_eq_true_eq] at h
  unfold escapeByte
  rcases h with ((((((h | h) | h) | h) | h) | h) | h) | h <;> subst h <;> simp [ch]

theorem getu4_of_hex {h1 h2 h3 h4 : Nat} (rest : Bytes)
    (a1 : isHex h1 = true) (a2 : isHex h2 = true) (a3 : isHex h3 = true) (a4 : isHex h4 = true) :
    ∃ rr, getu4 (0x5C :: ch 'u' :: h1 :: h2 :: h3 :: h4 :: rest) = some rr := by
  simp [getu4, a1, a2, a3, a4]

theorem shape_of_getu4 {l : Bytes} {rr : Nat} (h : getu4 l = some rr) :
    ∃ h1 h2 h3 h4 rest, l = 0x5C :: ch 'u' :: h1 :: h2 :: h3 :: h4 :: rest := by
  unfold getu4 at h
  match l, h with
  | b :: u :: h1 :: h2 :: h3 :: h4 :: rest, h =>
    simp only at h
    by_cases hh : b = 0x5C ∧ u = ch 'u' ∧ isHex h1 = true ∧ isHex h2 = true ∧ isHex h3 = true ∧
        isHex h4 = true
    · obtain ⟨hb, hu, _⟩ := hh
      subst hb hu
      exact ⟨h1, h2, h3, h4, rest, rfl⟩
    · rw [if_neg hh] at h
      cases h

theorem StrOk_after_getu4 {l : Bytes} {rr : Nat} (hl : StrOk l) (h : getu4 l = some rr) :
    StrOk (l.drop 6) := by
  obtain ⟨h1, h2, h3, h4, rest, rfl⟩ := shape_of_getu4 h
  cases hl with
  | plain _ h5c _ _ => exact absurd rfl h5c
  | esc hs _ => rw [not_simple_u] at hs; exact absurd hs (by decide)
  | uni _ _ _ _ hrest => simpa using hrest

theorem unquoteBody_of_StrOk (n : Nat) : ∀ l : Bytes, l.length ≤ n → StrOk l →
    ∃ b, unquoteBody 0 l = some b := by
  induction n with
  | zero =>
    intro l hlen _
    have : l = [] := List.length_eq_zero.mp (Nat.le_zero.mp hlen)
    subst this
    exact ⟨[], rfl⟩
  | succ n ih =>
    intro l hlen hl
    cases hl with
    | nil => exact ⟨[], rfl⟩
    | @plain c rest h22 h5c h20 hrest =>
      have hlen1 : rest.length ≤ n := by simpa using hlen
      obtain ⟨b, hb⟩ := ih rest hlen1 hrest
      rw [unquoteBody.eq_def]
      simp only [if_neg h5c]
      have hnot : ¬ (c = 0x22 ∨ c < 0x20) := by
        rintro (h | h)
        · exact h22 h
        · omega
      simp only [if_neg hnot]
      by_cases hlow : c < 0x80
      · simp only [if_pos hlow, hb, Option.map_some']
        exact ⟨_, rfl⟩
      · simp only [if_neg hlow]
        cases hr : runeLen (c :: rest) with
        | zero =>
          simp only [hb, Option.map_some']
          exact ⟨_, rfl⟩
        | succ m =>
          simp only
          rw [unquoteBody_skip]
          have hhigh := runeLen_take hr (by omega)
          have hdrop := StrOk_drop_high m hrest hhigh
          have hlen2 : (rest.drop m).length ≤ n := by
            rw [List.length_drop]; omega
          obtain ⟨b2, hb2⟩ := ih _ hlen2 hdrop
          simp only [hb2, Option.map_some']
          exact ⟨_, rfl⟩
    | @esc e rest hs hrest =>
      have hlen1 : rest.length ≤ n := by
        simp only [List.length_cons] at hlen; omega
      obtain ⟨b, hb⟩ := ih rest hlen1 hrest
      obtain ⟨eb, heb⟩ := escapeByte_of_simple hs
      have hne : e ≠ ch 'u' := by
        intro h; rw [h, not_simple_u] at hs; exact absurd hs (by decide)
      rw [unquoteBody.eq_def]
      simp only [if_true, if_neg hne, heb]
      rw [unquoteBody_skip]
      simp only [List.drop_succ_cons, List.drop_zero, hb, Option.map_some']
      exact ⟨_, rfl⟩
    | @uni h1 h2 h3 h4 rest a1 a2 a3 a4 hrest =>
      have hlen1 : rest.length ≤ n := by
        simp only [List.length_cons] at hlen; omega
      obtain ⟨b, hb⟩ := ih rest hlen1 hrest
      obtain ⟨rr, hrr⟩ := getu4_of_hex rest a1 a2 a3 a4
      rw [unquoteBody.eq_def]
      simp only [if_true, hrr]
      by_cases hsur : isSurrogate rr = true
      · simp only [if_pos hsur]
        cases hg : (getu4 (List.drop 5 (ch 'u' :: h1 :: h2 :: h3 :: h4 :: rest))).bind
            (decodeSurrogates rr) with
        | none =>
          simp only
          rw [unquoteBody_skip]
          simp only [List.drop_succ_cons, List.drop_zero, hb, Option.map_some']
          exact ⟨_, rfl⟩
        | some dec =>
          simp only
          rw [unquoteBody_skip]
          simp only [List.drop_succ_cons, List.drop_zero] at hg ⊢
          obtain ⟨r2, hr2, _⟩ := Option.bind_eq_some.mp hg
          have hdrop := StrOk_after_getu4 hrest hr2
          have hlen2 : (rest.drop 6).length ≤ n := by
            rw [List.length_drop]; omega
          obtain ⟨b2, hb2⟩ := ih _ hlen2 hdrop
          simp only [hb2, Option.map_some']
          exact ⟨_, rfl⟩
      · simp only [if_neg hsur]
        rw [unquoteBody_skip]
        simp only [List.drop_succ_cons, List.drop_zero, hb, Option.map_some']
        exact ⟨_, rfl⟩

theorem literalValue_of_scalar {item : Bytes} (h : ScalarLit item) :
    ∃ v, literalValue item.reverse = some v := by
  obtain ⟨c0, tl, hrev, hc⟩ := h
  rw [hrev]
  unfold startsScalar at hc
  simp only [Bool.or_eq_true, decide_eq_true_eq] at hc
  unfold literalValue
  simp only
  by_cases h1 : c0 = ch 'n'
  · exact ⟨_, if_pos h1⟩
  · by_cases h2 : c0 = ch 't'
    · exact ⟨_, by rw [if_neg h1, if_pos h2]⟩
    · by_cases h3 : c0 = ch 'f'
      · exact ⟨_, by rw [if_neg h1, if_neg h2, if_pos h3]⟩
      · have h5 : c0 = ch '-' ∨ isDigit c0 = true := by
          rcases hc with (((h | h) | h) | h) | h
          · exact absurd h h1
          · exact absurd h h2
          · exact absurd h h3
          · exact Or.inl h
          · exact Or.inr h
        have h4 : c0 ≠ 0x22 := by
          rcases h5 with h | h
          · rw [h]; decide
          · intro h22; rw [h22] at h; exact absurd h (by decide)
        exact ⟨_, by rw [if_neg h1, if_neg h2, if_neg h3, if_neg h4, if_pos h5]⟩

theorem literalValue_of_string {units : Bytes} (h : StrOk units) :
    ∃ k, literalValue (0x22 :: (units ++ [0x22])) = some (.str k) := by
  obtain ⟨b, hb⟩ := unquoteBody_of_StrOk units.length units (Nat.le_refl _) h
  refine ⟨b, ?_⟩
  have h1 : (0x22 : Nat) ≠ ch 'n' := by decide
  have h2 : (0x22 : Nat) ≠ ch 't' := by decide
  have h3 : (0x22 : Nat) ≠ ch 'f' := by decide
  unfold literalValue
  simp only [if_neg h1, if_neg h2, if_neg h3, if_true]
  unfold unquote
  simp [hb]

theorem deliver_value {fs : List Frame} {ps : List ParseState} (res : Option Value) (v : Value)
    (h : List.Forall₂ Waits fs ps) :
    Settled ps ((⟨none, fs, res, false⟩ : Decoder).deliver v) := by
  cases h with
  | nil => exact Settled.top v
  | cons hw hrest =>
    cases hw with
    | arr elems => exact Settled.inner res (After.arr _) hrest
    | obj entries k => exact Settled.inner res (After.obj _) hrest

theorem deliver_key {entries : List (Bytes × Value)} {fs : List Frame} {ps : List ParseState}
    (res : Option Value) (k : Bytes) (h : List.Forall₂ Waits fs ps) :
    Settled (.parseObjectKey :: ps)
      ((⟨none, .obj entries none :: fs, res, false⟩ : Decoder).deliver (.str k)) :=
  Settled.inner res (After.key _ _) h

theorem endLiteral_of_settled {ps : List ParseState} {d : Decoder} (h : Settled ps d) :
    d.endLiteral = d := by
  cases h <;> rfl

/-- After a value, the byte `c` is a separator, a closing bracket or space: what
`stateEndValue` and the decoder make of it. -/
theorem endValue_inv {ps : List ParseState} {d : Decoder} (st : Step) (c : Nat)
    (hs : Settled ps d.endLiteral) :
    Inv (stateEndValue ⟨st, ps, false, false⟩ c).1
      (d.feed c (stateEndValue ⟨st, ps, false, false⟩ c).2) := by
  generalize hd0 : d.endLiteral = d0 at hs
  cases hs with
  | top v =>
    unfold stateEndValue stateEndTop
    by_cases hsp : isSpace c = true
    · simp only [hsp, if_true]
      have : d.feed c .scanEnd = d.endLiteral := rfl
      rw [this, hd0]
      exact Inv.top v
    · simp only [hsp, Scanner.error]
      exact Inv.failed _ _ _
  | @inner f p fs ps1 res ha hw =>
    unfold stateEndValue
    by_cases hsp : isSpace c = true
    · simp only [hsp, if_true]
      have : d.feed c .scanSkipSpace = d.endLiteral := rfl
      rw [this, hd0]
      exact Inv.done (by exact Settled.inner res ha hw)
    · simp only [hsp]
      cases ha with
      | arr elems =>
        simp only [Bool.false_eq_true, if_false]
        by_cases hcomma : c = ch ','
        · simp only [hcomma, if_true]
          have : d.feed (ch ',') .scanArrayValue = d.endLiteral := rfl
          rw [this, hd0]
          exact Inv.start res (Or.inl rfl) (List.Forall₂.cons (Waits.arr _) hw)
        · simp only [if_neg hcomma]
          by_cases hclose : c = ch ']'
          · simp only [hclose, if_true]
            have : d.feed (ch ']') .scanEndArray = d.endLiteral.close := rfl
            rw [this, hd0]
            have hsettled := deliver_value res (.arr elems.reverse) hw
            cases hw with
            | nil => exact Inv.top _
            | cons hw1 hrest =>
              exact Inv.done (by
                have := endLiteral_of_settled hsettled
                simp only [Decoder.close, popParseState, List.tail_cons] at this ⊢
                rw [this]; exact hsettled)
          · simp only [if_neg hclose, Scanner.error]
            exact Inv.failed _ _ _
      | obj entries =>
        simp only [Bool.false_eq_true, if_false]
        by_cases hcomma : c = ch ','
        · simp only [hcomma, if_true]
          have : d.feed (ch ',') .scanObjectValue = d.endLiteral := rfl
          rw [this, hd0]
          exact Inv.startKey res (Or.inr rfl) hw
        · simp only [if_neg hcomma]
          by_cases hclose : c = ch '}'
          · simp only [hclose, if_true]
            have : d.feed (ch '}') .scanEndObject = d.endLiteral.close := rfl
            rw [this, hd0]
            have hsettled := deliver_value res (.obj entries.reverse) hw
            cases hw with
            | nil => exact Inv.top _
            | cons hw1 hrest =>
              exact Inv.done (by
                have := endLiteral_of_settled hsettled
                simp only [Decoder.close, popParseState, List.tail_cons] at this ⊢
                rw [this]; exact hsettled)
          · simp only [if_neg hclose, Scanner.error]
            exact Inv.failed _ _ _
      | key entries k =>
        simp only [Bool.false_eq_true, if_false]
        by_cases hcolon : c = ch ':'
        · simp only [hcolon, if_true]
          have : d.feed (ch ':') .scanObjectKey = d.endLiteral := rfl
          rw [this, hd0]
          exact Inv.start res (Or.inl rfl) (List.Forall₂.cons (Waits.obj _ _) hw)
        · simp only [if_neg hcolon, Scanner.error]
          exact Inv.failed _ _ _

theorem scalar_continue {item : Bytes} (c : Nat) (h : ScalarLit item) : ScalarLit (c :: item) := by
  obtain ⟨c0, tl, hrev, hc⟩ := h
  exact ⟨c0, tl ++ [c], by simp [hrev], hc⟩

theorem scalar_settled {item : Bytes} {fs : List Frame} {ps : List ParseState}
    (res : Option Value) (h : ScalarLit item) (hw : List.Forall₂ Waits fs ps) :
    Settled ps (⟨some item, fs, res, false⟩ : Decoder).endLiteral := by
  obtain ⟨v, hv⟩ := literalValue_of_scalar h
  simp only [Decoder.endLiteral, hv]
  exact deliver_value res v hw

theorem string_settled {units : Bytes} {item : Bytes} {fs : List Frame} {ps : List ParseState}
    (res : Option Value) (hrev : item.reverse = 0x22 :: units) (hu : StrOk units)
    (hslot : Slot fs ps) :
    Settled ps (⟨some (0x22 :: item), fs, res, false⟩ : Decoder).endLiteral := by
  obtain ⟨k, hk⟩ := literalValue_of_string hu
  have hlit : literalValue (0x22 :: item).reverse = some (.str k) := by
    rw [List.reverse_cons, hrev]; exact hk
  simp only [Decoder.endLiteral, hlit]
  cases hslot with
  | value hw => exact deliver_value res _ hw
  | key hw => exact deliver_key res k hw

theorem settled_of_none {fs : List Frame} {ps : List ParseState} {f : Frame} {p : ParseState}
    (res : Option Value) (ha : After f p) (hw : List.Forall₂ Waits fs ps) :
    Settled (p :: ps) (⟨none, f :: fs, res, false⟩ : Decoder).endLiteral :=
  Settled.inner res ha hw

/-- The first byte of a value. -/
theorem beginValue_inv {fs : List Frame} {ps : List ParseState} (st : Step) (res : Option Value)
    (c : Nat) (hsp : isSpace c = false) (hw : List.Forall₂ Waits fs ps) :
    Inv (stateBeginValue ⟨st, ps, false, false⟩ c).1
      ((⟨none, fs, res, false⟩ : Decoder).feed c (stateBeginValue ⟨st, ps, false, false⟩ c).2) := by
  unfold stateBeginValue
  simp only [hsp, Bool.false_eq_true, if_false]
  by_cases h1 : c = ch '{'
  · simp only [h1, if_true, pushParseState]
    split_ifs
    · exact Inv.startKey res (Or.inl rfl) hw
    · exact Inv.failed _ _ _
  simp only [if_neg h1]
  by_cases h2 : c = ch '['
  · simp only [h2, if_true, pushParseState]
    split_ifs
    · exact Inv.start res (Or.inr ⟨rfl, _, rfl⟩) (List.Forall₂.cons (Waits.arr _) hw)
    · exact Inv.failed _ _ _
  simp only [if_neg h2]
  by_cases h3 : c = 0x22
  · simp only [h3, if_true]
    exact Inv.inStr res ⟨[], [], rfl, StrOk.nil, Begun.str⟩ (Slot.value hw)
  simp only [if_neg h3]
  have hscalar : ∀ x : Nat, startsScalar x = true → ScalarLit [x] :=
    fun x hx => ⟨x, [], rfl, hx⟩
  by_cases h4 : c = ch '-'
  · simp only [h4, if_true]
    exact Inv.inScalar res rfl (hscalar _ (by decide)) hw
  simp only [if_neg h4]
  by_cases h5 : c = ch '0'
  · simp only [h5, if_true]
    exact Inv.inScalar res rfl (hscalar _ (by decide)) hw
  simp only [if_neg h5]
  by_cases h6 : c = ch 't'
  · simp only [h6, if_true]
    exact Inv.inScalar res rfl (hscalar _ (by decide)) hw
  simp only [if_neg h6]
  by_cases h7 : c = ch 'f'
  · simp only [h7, if_true]
    exact Inv.inScalar res rfl (hscalar _ (by decide)) hw
  simp only [if_neg h7]
  by_cases h8 : c = ch 'n'
  · simp only [h8, if_true]
    exact Inv.inScalar res rfl (hscalar _ (by decide)) hw
  simp only [if_neg h8]
  by_cases h9 : ch '1' ≤ c ∧ c ≤ ch '9'
  · simp only [if_pos h9]
    refine Inv.inScalar res rfl (hscalar _ ?_) hw
    have h0 : ch '0' ≤ c := Nat.le_trans (by decide) h9.1
    simp [startsScalar, isDigit, h0, h9.2]
  · simp only [if_neg h9, Scanner.error]
    exact Inv.failed _ _ _

/-- A byte inside a string literal. -/
theorem inStr_inv {st : Step} {item : Bytes} {fs : List Frame} {ps : List ParseState}
    (res : Option Value) (c : Nat) (hlit : StrLit st item) (hslot : Slot fs ps) :
    Inv ((⟨st, ps, false, false⟩ : Scanner).feed c).1
      ((⟨some item, fs, res, false⟩ : Decoder).feed c
        ((⟨st, ps, false, false⟩ : Scanner).feed c).2) := by
  obtain ⟨units, part, hrev, hu, hp⟩ := hlit
  cases hp with
  | str =>
    simp only [List.append_nil] at hrev
    simp only [Scanner.feed]
    unfold stateInString
    by_cases h1 : c = 0x22
    · subst h1
      simp only [if_true]
      exact Inv.done (string_settled res hrev hu hslot)
    simp only [if_neg h1]
    by_cases h2 : c = 0x5C
    · subst h2
      simp only [if_true]
      exact Inv.inStr res ⟨units, [0x5C], by simp [hrev], hu, Begun.esc⟩ hslot
    simp only [if_neg h2]
    by_cases h3 : c < 0x20
    · simp only [if_pos h3, Scanner.error]
      exact Inv.failed _ _ _
    · simp only [if_neg h3]
      exact Inv.inStr res
        ⟨units ++ [c], [], by simp [hrev],
          StrOk_append hu (StrOk.plain h1 h2 (Nat.le_of_not_lt h3) StrOk.nil), Begun.str⟩ hslot
  | esc =>
    simp only [Scanner.feed]
    unfold stateInStringEsc
    by_cases h1 : isSimpleEsc c = true
    · simp only [if_pos h1]
      exact Inv.inStr res
        ⟨units ++ [0x5C, c], [], by simp [hrev],
          StrOk_append hu (StrOk.esc h1 StrOk.nil), Begun.str⟩ hslot
    simp only [if_neg h1]
    by_cases h2 : c = ch 'u'
    · subst h2
      simp only [if_true]
      exact Inv.inStr res ⟨units, [0x5C, ch 'u'], by simp [hrev], hu, Begun.u0⟩ hslot
    · simp only [if_neg h2, Scanner.error]
      exact Inv.failed _ _ _
  | u0 =>
    simp only [Scanner.feed]
    unfold stateHex
    by_cases h1 : isHex c = true
    · simp only [if_pos h1]
      exact Inv.inStr res ⟨units, [0x5C, ch 'u', c], by simp [hrev], hu, Begun.u1 h1⟩ hslot
    · simp only [if_neg h1, Scanner.error]
      exact Inv.failed _ _ _
  | @u1 x1 a1 =>
    simp only [Scanner.feed]
    unfold stateHex
    by_cases h1 : isHex c = true
    · simp only [if_pos h1]
      exact Inv.inStr res
        ⟨units, [0x5C, ch 'u', x1, c], by simp [hrev], hu, Begun.u2 a1 h1⟩ hslot
    · simp only [if_neg h1, Scanner.error]
      exact Inv.failed _ _ _
  | @u2 x1 x2 a1 a2 =>
    simp only [Scanner.feed]
    unfold stateHex
    by_cases h1 : isHex c = true
    · simp only [if_pos h1]
      exact Inv.inStr res
        ⟨units, [0x5C, ch 'u', x1, x2, c], by simp [hrev], hu, Begun.u3 a1 a2 h1⟩ hslot
    · simp only [if_neg h1, Scanner.error]
      exact Inv.failed _ _ _
  | @u3 x1 x2 x3 a1 a2 a3 =>
    simp only [Scanner.feed]
    unfold stateHex
    by_cases h1 : isHex c = true
    · simp only [if_pos h1]
      exact Inv.inStr res
        ⟨units ++ [0x5C, ch 'u', x1, x2, x3, c], [], by simp [hrev],
          StrOk_append hu (StrOk.uni a1 a2 a3 h1 StrOk.nil), Begun.str⟩ hslot
    · simp only [if_neg h1, Scanner.error]
      exact Inv.failed _ _ _

/-- A byte inside a number or a keyword, or right after a number. -/
theorem inScalar_inv {st : Step} {item : Bytes} {fs : List Frame} {ps : List ParseState}
    (res : Option Value) (c : Nat) (hst : isScalarStep st = true) (hl : ScalarLit item)
    (hw : List.Forall₂ Waits fs ps) :
    Inv ((⟨st, ps, false, false⟩ : Scanner).feed c).1
      ((⟨some item, fs, res, false⟩ : Decoder).feed c
        ((⟨st, ps, false, false⟩ : Scanner).feed c).2) := by
  cases st <;> simp only [isScalarStep, Bool.false_eq_true] at hst <;>
    simp only [Scanner.feed] <;>
    first
    | (unfold stateNeg; split_ifs <;>
        first
        | exact Inv.inScalar res rfl (scalar_continue c hl) hw
        | exact Inv.failed _ _ _)
    | (unfold state1 state0; split_ifs <;>
        first
        | exact Inv.inScalar res rfl (scalar_continue c hl) hw
        | exact endValue_inv _ c (scalar_settled res hl hw))
    | (unfold state0; split_ifs <;>
        first
        | exact Inv.inScalar res rfl (scalar_continue c hl) hw
        | exact endValue_inv _ c (scalar_settled res hl hw))
    | (unfold stateDot; split_ifs <;>
        first
        | exact Inv.inScalar res rfl (scalar_continue c hl) hw
        | exact Inv.failed _ _ _)
    | (unfold stateDot0; split_ifs <;>
        first
        | exact Inv.inScalar res rfl (scalar_continue c hl) hw
        | exact endValue_inv _ c (scalar_settled res hl hw))
    | (unfold stateE stateESign; split_ifs <;>
        first
        | exact Inv.inScalar res rfl (scalar_continue c hl) hw
        | exact Inv.failed _ _ _)
    | (unfold stateESign; split_ifs <;>
        first
        | exact Inv.inScalar res rfl (scalar_continue c hl) hw
        | exact Inv.failed _ _ _)
    | (unfold stateE0; split_ifs <;>
        first
        | exact Inv.inScalar res rfl (scalar_continue c hl) hw
        | exact endValue_inv _ c (scalar_settled res hl hw))
    | (unfold stateLetter; split_ifs <;>
        first
        | exact Inv.inScalar res rfl (scalar_continue c hl) hw
        | exact Inv.done (scalar_settled res (scalar_continue c hl) hw)
        | exact Inv.failed _ _ _)

/-- One byte keeps scanner and decoder together. -/
theorem inv_feed {s : Scanner} {d : Decoder} (c : Nat) (h : Inv s d) :
    Inv (s.feed c).1 (d.feed c (s.feed c).2) := by
  cases h with
  | @start st fs ps res hst hw =>
    rcases hst with rfl | ⟨rfl, ps1, rfl⟩
    · simp only [Scanner.feed]
      cases hsp : isSpace c with
      | true =>
        unfold stateBeginValue
        simp only [hsp, if_true]
        exact Inv.start res (Or.inl rfl) hw
      | false => exact beginValue_inv _ res c hsp hw
    · simp only [Scanner.feed]
      unfold stateBeginValueOrEmpty
      cases hsp : isSpace c with
      | true =>
        simp only [if_true]
        exact Inv.start res (Or.inr ⟨rfl, _, rfl⟩) hw
      | false =>
        simp only [Bool.false_eq_true, if_false]
        by_cases hclose : c = ch ']'
        · simp only [if_pos hclose]
          cases hw with
          | cons hw1 hrest =>
            cases hw1 with
            | arr elems => exact endValue_inv _ c (settled_of_none res (After.arr _) hrest)
        · simp only [if_neg hclose]
          exact beginValue_inv _ res c hsp hw
  | @startKey st entries fs ps res hst hw =>
    have hstring : isSpace c = false →
        Inv (stateBeginString ⟨st, .parseObjectKey :: ps, false, false⟩ c).1
          ((⟨none, .obj entries none :: fs, res, false⟩ : Decoder).feed c
            (stateBeginString ⟨st, .parseObjectKey :: ps, false, false⟩ c).2) := by
      intro hsp
      unfold stateBeginString
      simp only [hsp, Bool.false_eq_true, if_false]
      by_cases hq : c = 0x22
      · subst hq
        simp only [if_true]
        exact Inv.inStr res ⟨[], [], rfl, StrOk.nil, Begun.str⟩ (Slot.key hw)
      · simp only [if_neg hq, Scanner.error]
        exact Inv.failed _ _ _
    rcases hst with rfl | rfl
    · simp only [Scanner.feed]
      unfold stateBeginStringOrEmpty
      cases hsp : isSpace c with
      | true =>
        simp only [if_true]
        exact Inv.startKey res (Or.inl rfl) hw
      | false =>
        simp only [Bool.false_eq_true, if_false]
        by_cases hclose : c = ch '}'
        · simp only [if_pos hclose, List.tail_cons]
          exact endValue_inv _ c (settled_of_none res (After.obj _) hw)
        · simp only [if_neg hclose]
          exact hstring hsp
    · simp only [Scanner.feed]
      cases hsp : isSpace c with
      | true =>
        unfold stateBeginString
        simp only [hsp, if_true]
        exact Inv.startKey res (Or.inr rfl) hw
      | false => exact hstring hsp
  | inStr res hlit hslot => exact inStr_inv res c hlit hslot
  | inScalar res hst hl hw => exact inScalar_inv res c hst hl hw
  | done hs =>
    simp only [Scanner.feed]
    exact endValue_inv _ c hs
  | top v =>
    simp only [Scanner.feed]
    unfold stateEndTop
    cases hsp : isSpace c with
    | true =>
      simp only [if_true]
      exact Inv.top v
    | false =>
      simp only [Bool.false_eq_true, if_false, Scanner.error]
      exact Inv.failed _ _ _
  | failed ps et d =>
    simp only [Scanner.feed]
    exact Inv.failed _ _ _

theorem inv_decodeAll (data : Bytes) {s : Scanner} {d : Decoder} (h : Inv s d) :
    Inv (decodeAll s d data).1 (decodeAll s d data).2 := by
  induction data generalizing s d with
  | nil => exact h
  | cons c rest ih => exact ih (inv_feed c h)

theorem decodeAll_scanner (data : Bytes) (s : Scanner) (d : Decoder) :
    (decodeAll s d data).1 = scanAll s data := by
  induction data generalizing s d with
  | nil => rfl
  | cons c rest ih => exact ih _ _

/-- Where a space completes the top-level value, it records no error. -/
theorem endTop_by_space {s : Scanner} {d : Decoder} (h : Inv s d) (he : s.err = false)
    (ht : s.endTop = false) (hsp : (s.feed (ch ' ')).1.endTop = true) :
    ∃ v, (d.feed (ch ' ') (s.feed (ch ' ')).2).stuck = false ∧
      (d.feed (ch ' ') (s.feed (ch ' ')).2).result = some v := by
  have hnext := inv_feed (ch ' ') h
  have herr : (s.feed (ch ' ')).1.err = false := by
    rcases s with ⟨st, ps, et, er⟩
    simp only at he ht
    subst he ht
    have hspace : isSpace (ch ' ') = true := by decide
    cases st <;> cases ps <;>
      simp_all [Scanner.feed, stateBeginValueOrEmpty, stateBeginValue, stateBeginStringOrEmpty,
        stateBeginString, stateEndValue, stateEndTop, stateInString, stateInStringEsc, stateHex,
        stateLetter, stateNeg, state0, state1, stateDot, stateDot0, stateE, stateESign, stateE0,
        Scanner.error, popParseState, pushParseState] <;>
      (try split_ifs at hsp ⊢) <;> simp_all
  generalize (s.feed (ch ' ')).1 = s1 at hnext hsp herr
  generalize d.feed (ch ' ') (s.feed (ch ' ')).2 = d1 at hnext
  cases hnext with
  | top v => exact ⟨v, rfl, rfl⟩
  | failed => simp at herr
  | _ => simp at hsp

/-- On text that `checkValid` accepts the decoder is not stuck and has a value. -/
theorem decodeValue_of_valid (data : Bytes) (h : checkValid data = true) :
    ∃ v, decodeValue data = some v := by
  have hinv : Inv (decodeAll Scanner.reset Decoder.init data).1
      (decodeAll Scanner.reset Decoder.init data).2 :=
    inv_decodeAll data (Inv.start none (Or.inl rfl) List.Forall₂.nil)
  have hscan := decodeAll_scanner data Scanner.reset Decoder.init
  unfold checkValid Scanner.eofOk at h
  rw [← hscan] at h
  unfold decodeValue
  generalize decodeAll Scanner.reset Decoder.init data = p at hinv h
  obtain ⟨s, d⟩ := p
  simp only at hinv h ⊢
  cases he : s.err with
  | true => simp [he] at h
  | false =>
    simp only [he, Bool.false_eq_true, if_false] at h
    cases ht : s.endTop with
    | true =>
      simp only [if_true]
      rcases s with ⟨st, ps, et, er⟩
      simp only at he ht
      subst he ht
      cases hinv with
      | top v => exact ⟨v, rfl⟩
    | false =>
      simp only [ht, Bool.false_eq_true, if_false] at h ⊢
      obtain ⟨v, hstuck, hres⟩ := endTop_by_space hinv he ht h
      exact ⟨v, by simp [hstuck, hres]⟩

/-- Valid JSON is an object, `null`, or of another kind. -/
theorem valid_kinds {s : Bytes} (h : checkValid s = true) :
    decodesAsObject s = true ∨ decodesAsNull s = true ∨ isOtherKind s = true := by
  obtain ⟨v, hv⟩ := decodeValue_of_valid s h
  cases v with
  | obj entries => exact Or.inl (by simp [decodesAsObject, h, hv])
  | null => exact Or.inr (Or.inl (by simp [decodesAsNull, h, hv]))
  | _ => exact Or.inr (Or.inr (by simp [isOtherKind, h, hv]))

/-! ## C1: the payload of a number -/

/-- The data of the example with a number decodes to the entries `a ↦ 1` and
`b ↦ "x"`, unless the float library rejects `1`. -/
theorem unmarshalMap_number_example (fl : FloatLib) :
    unmarshalMap fl (envelope datagramNumber).Data =
      if fl.rangeError (bytes "1") = true then .error .typeError
      else .ok [(bytes "a", .num (bytes "1")), (bytes "b", .str (bytes "x"))] := by
  have hd : (envelope datagramNumber).Data = bytes "\x7b\"a\":1,\"b\":\"x\"\x7d" := by decide
  have hv : checkValid (bytes "\x7b\"a\":1,\"b\":\"x\"\x7d") = true := by decide
  have hval : decodeValue (bytes "\x7b\"a\":1,\"b\":\"x\"\x7d") =
      some (.obj [(bytes "a", .num (bytes "1")), (bytes "b", .str (bytes "x"))]) := by rfl
  have hmap : toMap [(bytes "a", Value.num (bytes "1")), (bytes "b", Value.str (bytes "x"))] =
      [(bytes "a", .num (bytes "1")), (bytes "b", .str (bytes "x"))] := by rfl
  rw [hd]
  unfold unmarshalMap
  rw [hv, hval]
  simp only [numbersOk, numbersOk.entriesOk, hmap]
  cases fl.rangeError (bytes "1") <;> simp

/-- C1, the failing input: on the envelope with model `m`, sid `s` and data
`{"a":1,"b":"x"}`, whatever the float library and the order of the map walk,
the message with topic `/mibridge/m/s/a` and payload `1` is not among the
messages sent. With a float library that prints 1 as `1` the messages are
`/mibridge/m/s/a` with payload `%!s(float64=1)` and `/mibridge/m/s/b` with
payload `x`. -/
theorem number_payload_is_bad_verb :
    (∀ (fl : FloatLib) (ord : RangeOrder),
      (bytes "/mibridge/m/s/a", bytes "1") ∉ (parseMsg fl ord datagramNumber).sent) ∧
    (parseMsg literalFloat textOrder datagramNumber).panicked = false ∧
    (parseMsg literalFloat textOrder datagramNumber).sent =
      [(bytes "/mibridge/m/s/a", bytes "%!s(float64=1)"), (bytes "/mibridge/m/s/b", bytes "x")] := by
  refine ⟨?_, by decide, by decide⟩
  intro fl ord hmem
  have hu := unmarshalMap_number_example fl
  cases hr : fl.rangeError (bytes "1") with
  | true =>
    rw [hr] at hu
    rw [parseMsg_of_error (by simpa using hu)] at hmem
    simp [Run.sent, sentFrom] at hmem
  | false =>
    rw [hr] at hu
    have hu2 : unmarshalMap fl (envelope datagramNumber).Data =
        .ok [(bytes "a", .num (bytes "1")), (bytes "b", .str (bytes "x"))] := by simpa using hu
    have hp := (sent_perm_of_ok ord hu2 (by simp)).mem_iff.mp hmem
    have h37 : bytes "%!s(" = [37, 33, 115, 40] := by decide
    have h49 : bytes "1" = [49] := by decide
    have hx : bytes "x" = [120] := by decide
    simp [sprintS, printValue, badVerb, h37, h49, hx] at hp

/-! ## C2: empty or absent data -/

/-- C2, counterexample: the envelope `{"model":"m","sid":"s"}` carries no data, and
with no float library and no order of the map walk does `parseMsg` send the
message with topic `/mibridge/m/s` and empty payload on it. -/
theorem no_fallback_without_data :
    (envelope datagramNoData).Data = [] ∧
    ¬ ∃ (fl : FloatLib) (ord : RangeOrder),
      (parseMsg fl ord datagramNoData).sent = [(bytes "/mibridge/m/s", [])] := by
  have hd : (envelope datagramNoData).Data = [] := by decide
  refine ⟨hd, ?_⟩
  rintro ⟨fl, ord, h⟩
  have he : unmarshalMap fl (envelope datagramNoData).Data = .error .syntaxError := by
    rw [hd]; exact unmarshalMap_empty fl
  rw [parseMsg_of_error he] at h
  simp [Run.sent, sentFrom] at h

/-- C2, amended: when the data field of the envelope is empty, or the envelope
text is a JSON object in which no key names the field `data`, `parseMsg`
panics and has sent no message. -/
theorem empty_data_panics (fl : FloatLib) (ord : RangeOrder) (text : Bytes)
    (h : (envelope text).Data = [] ∨
      (checkValid text = true ∧ ∃ entries, decodeValue text = some (.obj entries) ∧
        ∀ kv ∈ entries, findField kv.1 ≠ some .data)) :
    (parseMsg fl ord text).panicked = true ∧ (parseMsg fl ord text).sent = [] := by
  have hd : (envelope text).Data = [] := by
    rcases h with h | ⟨hv, entries, he, hk⟩
    · exact h
    · exact envelope_data_absent hv he hk
  rw [parseMsg_of_empty_data hd]
  exact ⟨rfl, rfl⟩

/-- C2, witness: the envelope `{"model":"m","sid":"s","data":""}`, whose data is empty, and
the envelope `{"model":"m","sid":"s"}`, which has no data. -/
theorem empty_data_panics_witness :
    ((envelope datagramEmptyData).Data = [] ∧
      (parseMsg literalFloat textOrder datagramEmptyData).panicked = true ∧
      (parseMsg literalFloat textOrder datagramEmptyData).sent = []) ∧
    (decodeValue datagramNoData =
        some (.obj [(bytes "model", .str (bytes "m")), (bytes "sid", .str (bytes "s"))]) ∧
      (parseMsg literalFloat textOrder datagramNoData).panicked = true ∧
      (parseMsg literalFloat textOrder datagramNoData).sent = []) :=
  ⟨⟨by decide, empty_data_panics literalFloat textOrder datagramEmptyData (Or.inl (by decide))⟩,
   ⟨by rfl, empty_data_panics literalFloat textOrder datagramNoData
      (Or.inr ⟨by decide, _, by rfl, by decide⟩)⟩⟩

/-! ## C3: text that is not JSON -/

/-- C3, counterexample: after the datagram `not json` the receive loop has taken
one read and has crashed; the two valid datagrams that follow, each of which
alone yields the message with topic `/mibridge/m/s`, yield nothing. -/
theorem garbage_stops_the_loop :
    checkValid datagramGarbage = false ∧
    (parseMsg literalFloat textOrder datagramEmptyObject).sent = [(bytes "/mibridge/m/s", [])] ∧
    ¬ ∃ (fl : FloatLib) (ord : Nat → RangeOrder),
      Output.message (bytes "/mibridge/m/s", []) ∈
        (Multicast.Start fl ord 0 [⟨datagramGarbage, false⟩, ⟨datagramEmptyObject, false⟩,
          ⟨datagramEmptyObject, false⟩]).out := by
  have hv : checkValid datagramGarbage = false := by decide
  refine ⟨hv, by decide, ?_⟩
  rintro ⟨fl, ord, h⟩
  have he : unmarshalMap fl (envelope datagramGarbage).Data = .error .syntaxError := by
    rw [envelope_of_invalid hv]; exact unmarshalMap_empty fl
  simp [Multicast.Start, parseMsg_of_error he, Run.sent, sentFrom] at h

/-- C3, amended: for text that is not valid JSON the decoding of the envelope
returns an error, which `parseMsg` drops, and leaves every field empty;
`parseMsg` then panics without a message, and the receive loop ends with this
read, whatever reads would follow. -/
theorem invalid_text_panics (fl : FloatLib) (ord : Nat → RangeOrder) (k : Nat) (text : Bytes)
    (err : Bool) (rest : List ReadResult) (h : checkValid text = false) :
    unmarshalDevice text {} = ({}, some .syntaxError) ∧
    parseMsg fl (ord k) text = ⟨[], true⟩ ∧
    Multicast.Start fl ord k (⟨text, err⟩ :: rest) = ⟨[], 1, true⟩ := by
  have he : unmarshalMap fl (envelope text).Data = .error .syntaxError := by
    rw [envelope_of_invalid h]; exact unmarshalMap_empty fl
  refine ⟨by simp [unmarshalDevice, h], parseMsg_of_error he, ?_⟩
  simp [Multicast.Start, parseMsg_of_error he, Run.sent, sentFrom]

/-- C3, witness: the datagram `not json`, followed by a valid one. -/
theorem invalid_text_panics_witness :
    checkValid datagramGarbage = false ∧
    unmarshalDevice datagramGarbage {} = ({}, some .syntaxError) ∧
    parseMsg literalFloat textOrder datagramGarbage = ⟨[], true⟩ ∧
    Multicast.Start literalFloat (fun _ => textOrder) 0
      [⟨datagramGarbage, false⟩, ⟨datagramEmptyObject, false⟩] = ⟨[], 1, true⟩ :=
  ⟨by decide,
   invalid_text_panics literalFloat (fun _ => textOrder) 0 datagramGarbage false
     [⟨datagramEmptyObject, false⟩] (by decide)⟩

/-! ## C4: data that is not JSON -/

/-- C4: when the data field of the envelope is not empty and is not valid JSON,
`parseMsg` panics, having sent nothing, and the receive loop ends with it; the
other fields of the envelope play no part. -/
theorem malformed_data_panics (fl : FloatLib) (ord : Nat → RangeOrder) (k : Nat) (text : Bytes)
    (err : Bool) (rest : List ReadResult)
    (_hne : (envelope text).Data ≠ []) (hbad : checkValid (envelope text).Data = false) :
    (parseMsg fl (ord k) text).panicked = true ∧ (parseMsg fl (ord k) text).sent = [] ∧
    (Multicast.Start fl ord k (⟨text, err⟩ :: rest)).crashed = true := by
  have he : unmarshalMap fl (envelope text).Data = .error .syntaxError := by
    simp [unmarshalMap, hbad]
  simp [Multicast.Start, parseMsg_of_error he, Run.sent, sentFrom]

/-- C4, witness: the envelope whose data is `{"a":`. -/
theorem malformed_data_panics_witness :
    (envelope datagramBadData).Data ≠ [] ∧ checkValid (envelope datagramBadData).Data = false ∧
    (parseMsg literalFloat textOrder datagramBadData).panicked = true ∧
    (parseMsg literalFloat textOrder datagramBadData).sent = [] ∧
    (Multicast.Start literalFloat (fun _ => textOrder) 0 [⟨datagramBadData, false⟩]).crashed = true :=
  ⟨by decide, by decide,
   malformed_data_panics literalFloat (fun _ => textOrder) 0 datagramBadData false []
     (by decide) (by decide)⟩

/-! ## C5: a mapping with no entries -/

/-- C5: when the data field decodes to a mapping with no entries, `parseMsg`
returns after exactly one message: its topic is `/mibridge/`, the model, `/`, the
sid, with no field segment, and its payload is the empty string. -/
theorem empty_mapping_sends_device_topic (fl : FloatLib) (ord : RangeOrder) (text : Bytes)
    (h : unmarshalMap fl (envelope text).Data = .ok []) :
    (parseMsg fl ord text).panicked = false ∧
    (parseMsg fl ord text).sent =
      [(bytes "/mibridge/" ++ (envelope text).Model ++ bytes "/" ++ (envelope text).Sid, [])] := by
  rw [parseMsg_of_empty h]
  exact ⟨rfl, rfl⟩

/-- C5, witness: the envelope with model `m`, sid `s` and data `{}`. -/
theorem empty_mapping_sends_device_topic_witness :
    unmarshalMap literalFloat (envelope datagramEmptyObject).Data = .ok [] ∧
    (parseMsg literalFloat textOrder datagramEmptyObject).panicked = false ∧
    (parseMsg literalFloat textOrder datagramEmptyObject).sent = [(bytes "/mibridge/m/s", [])] :=
  ⟨by rfl, empty_mapping_sends_device_topic literalFloat textOrder datagramEmptyObject (by rfl)⟩

/-! ## C6: a read that fails -/

/-- C6, the failing input: a read that returns an error and no bytes. `parseMsg`
runs on the empty text before the error is looked at and panics: nothing is
logged, and the loop takes no further read. -/
theorem failed_read_crashes (fl : FloatLib) (ord : Nat → RangeOrder) (k : Nat)
    (rest : List ReadResult) :
    Multicast.Start fl ord k (⟨[], true⟩ :: rest) = ⟨[], 1, true⟩ := by
  have hv : checkValid [] = false := by decide
  have he : unmarshalMap fl (envelope []).Data = .error .syntaxError := by
    rw [envelope_of_invalid hv]; exact unmarshalMap_empty fl
  simp [Multicast.Start, parseMsg_of_error he, Run.sent, sentFrom]

/-- What the loop does by design with a read that fails: when `parseMsg` returns on
the bytes read, the error is logged after the messages and the loop goes on
with the next read. -/
theorem failed_read_logged_when_parse_returns (fl : FloatLib) (ord : Nat → RangeOrder) (k : Nat)
    (text : Bytes) (rest : List ReadResult)
    (h : (parseMsg fl (ord k) text).panicked = false) :
    Multicast.Start fl ord k (⟨text, true⟩ :: rest) =
      ⟨(parseMsg fl (ord k) text).sent.map Output.message ++ [Output.logError] ++
          (Multicast.Start fl ord (k + 1) rest).out,
        (Multicast.Start fl ord (k + 1) rest).reads + 1,
        (Multicast.Start fl ord (k + 1) rest).crashed⟩ := by
  simp [Multicast.Start, h]

/-! ## C7: the order of the messages of two datagrams -/

/-- What holds of the hand-over: when two datagrams that both decode are read
one after the other, the messages the receive loop hands to the channel are
those of the first datagram, in some order, followed by those of the second,
in some order, each with the contents it has at its send. -/
theorem handover_in_datagram_order (fl : FloatLib) (ord : Nat → RangeOrder) (k : Nat)
    (d1 d2 : ReadResult) (o1 o2 : RangeOrder)
    (h1 : (parseMsg fl o1 d1.text).panicked = false)
    (h2 : (parseMsg fl o2 d2.text).panicked = false) :
    ∃ a b : List Message,
      messagesOf (Multicast.Start fl ord k [d1, d2]).out = a ++ b ∧
      (a : Multiset Message) = ((parseMsg fl o1 d1.text).sent : Multiset Message) ∧
      (b : Multiset Message) = ((parseMsg fl o2 d2.text).sent : Multiset Message) := by
  have e1 : (parseMsg fl (ord k) d1.text).panicked = false :=
    (panicked_order_free fl (ord k) o1 d1.text).trans h1
  have e2 : (parseMsg fl (ord (k + 1)) d2.text).panicked = false :=
    (panicked_order_free fl (ord (k + 1)) o2 d2.text).trans h2
  have hout : messagesOf (Multicast.Start fl ord k [d1, d2]).out =
      (parseMsg fl (ord k) d1.text).sent ++ (parseMsg fl (ord (k + 1)) d2.text).sent := by
    simp only [Multicast.Start, e1, e2, Bool.false_eq_true, if_false, List.append_nil]
    rw [messagesOf_append, messagesOf_append, messagesOf_append, messagesOf_messages,
      messagesOf_messages]
    cases d1.err <;> cases d2.err <;> simp [messagesOf]
  refine ⟨_, _, hout, ?_, ?_⟩
  · exact Multiset.coe_eq_coe.mpr (sent_order_free fl (ord k) o1 d1.text)
  · exact Multiset.coe_eq_coe.mpr (sent_order_free fl (ord (k + 1)) o2 d2.text)

/-- C7, the failing input: the datagram with fields `a` and `b` is read, then
the datagram with field `c`. The receive loop hands over `a`, `b`, `c` in
this order, and a publish loop that reads each slice at once publishes them
so. A publish loop that reads the slice it received for `a` when `parseMsg`
has gone on to its next send finds the topic and payload of `b` in it: it
publishes `b` twice and `a` never, which is no ordering of the messages of
the first datagram. -/
theorem late_reader_publishes_last_field_twice :
    messagesOf (Multicast.Start literalFloat (fun _ => textOrder) 0
        [⟨datagramStrings, false⟩, ⟨datagramOther, false⟩]).out =
      [(bytes "/mibridge/m/s/a", bytes "1"), (bytes "/mibridge/m/s/b", bytes "x"),
       (bytes "/mibridge/n/t/c", bytes "y")] ∧
    (Mqtt.Connect promptReader 0 [] (Multicast.trace literalFloat (fun _ => textOrder) 0
        [⟨datagramStrings, false⟩, ⟨datagramOther, false⟩])).map (fun p => (p.topic, p.payload)) =
      [(bytes "/mibridge/m/s/a", bytes "1"), (bytes "/mibridge/m/s/b", bytes "x"),
       (bytes "/mibridge/n/t/c", bytes "y")] ∧
    (Mqtt.Connect lateReader 0 [] (Multicast.trace literalFloat (fun _ => textOrder) 0
        [⟨datagramStrings, false⟩, ⟨datagramOther, false⟩])).map (fun p => (p.topic, p.payload)) =
      [(bytes "/mibridge/m/s/b", bytes "x"), (bytes "/mibridge/m/s/b", bytes "x"),
       (bytes "/mibridge/n/t/c", bytes "y")] ∧
    ¬ ((Mqtt.Connect lateReader 0 [] (Multicast.trace literalFloat (fun _ => textOrder) 0
        [⟨datagramStrings, false⟩, ⟨datagramOther, false⟩])).map (fun p => (p.topic, p.payload))).Perm
      ((parseMsg literalFloat textOrder datagramStrings).sent ++
        (parseMsg literalFloat textOrder datagramOther).sent) := by
  refine ⟨by decide, by decide, by decide, ?_⟩
  intro h
  have hm := h.mem_iff (a := (bytes "/mibridge/m/s/a", bytes "1"))
  revert hm
  decide

/-! ## C8: decoding twice -/

/-- C8: two runs of `parseMsg` on the same text, whatever the order of the two
map walks, both panic or both return, and send the same multiset of
messages. -/
theorem decode_twice_same_messages (fl : FloatLib) (ord1 ord2 : RangeOrder) (text : Bytes) :
    (parseMsg fl ord1 text).panicked = (parseMsg fl ord2 text).panicked ∧
    ((parseMsg fl ord1 text).sent : Multiset Message) = ((parseMsg fl ord2 text).sent : Multiset Message) := by
  exact ⟨panicked_order_free fl ord1 ord2 text,
    Multiset.coe_eq_coe.mpr (sent_order_free fl ord1 ord2 text)⟩

/-- C8, worked example: on the envelope with data `{"a":"1","b":"x"}` the walk in the
order of the text and the walk in reverse send the two messages in different
orders, and the same multiset. -/
theorem decode_twice_example :
    (parseMsg literalFloat textOrder datagramStrings).sent =
      [(bytes "/mibridge/m/s/a", bytes "1"), (bytes "/mibridge/m/s/b", bytes "x")] ∧
    (parseMsg literalFloat reverseOrder datagramStrings).sent =
      [(bytes "/mibridge/m/s/b", bytes "x"), (bytes "/mibridge/m/s/a", bytes "1")] ∧
    (parseMsg literalFloat textOrder datagramStrings).panicked =
      (parseMsg literalFloat reverseOrder datagramStrings).panicked ∧
    ((parseMsg literalFloat textOrder datagramStrings).sent : Multiset Message) =
      ((parseMsg literalFloat reverseOrder datagramStrings).sent : Multiset Message) :=
  ⟨by decide, by decide,
   decode_twice_same_messages literalFloat textOrder reverseOrder datagramStrings⟩

/-! ## C9: the buffer of a message -/

/-- C9, the failing inputs: whenever `parseMsg` sends two messages or more, it
sends the first and then assigns the topic and the payload of the second to
the same buffer, which it sends again. -/
theorem buffer_written_after_send (fl : FloatLib) (ord : RangeOrder) (text : Bytes)
    (h : 2 ≤ (parseMsg fl ord text).sent.length) :
    ∃ (m1 m2 : Message) (more : List Message) (later : List Event),
      (parseMsg fl ord text).sent = m1 :: m2 :: more ∧
      (parseMsg fl ord text).events =
        [.store 0 m1.1, .store 1 m1.2, .send, .store 0 m2.1, .store 1 m2.2, .send] ++ later := by
  cases hu : unmarshalMap fl (envelope text).Data with
  | error e =>
    rw [parseMsg_of_error hu] at h
    simp [Run.sent, sentFrom] at h
  | ok data =>
    by_cases hne : data = []
    · subst hne
      rw [parseMsg_of_empty hu] at h
      simp [Run.sent, sentFrom] at h
    · rw [parseMsg_of_entries hu hne] at h ⊢
      simp only [Run.sent] at h ⊢
      rw [sentFrom_fanOut] at h ⊢
      match hw : ord.walk data, h with
      | [], h => simp [hw] at h
      | [_], h => simp [hw] at h
      | x :: y :: rest, _ =>
        refine ⟨_, _, _, rest.flatMap fun iv =>
          [.store 0 (fieldTopic (envelope text).Model (envelope text).Sid iv.1),
           .store 1 (sprintS fl iv.2), .send], rfl, ?_⟩
        simp [List.flatMap_cons]

/-- C9, witness: the envelope with data `{"a":"1","b":"x"}`. The buffer sent with
topic `/mibridge/m/s/a` and payload `1` holds topic `/mibridge/m/s/b` and
payload `x` when `parseMsg` returns, and a publish loop that reads the slice
it received first when `parseMsg` is at its second send reads `b` and `x`
from it. -/
theorem buffer_written_after_send_witness :
    2 ≤ (parseMsg literalFloat textOrder datagramStrings).sent.length ∧
    (parseMsg literalFloat textOrder datagramStrings).sent.head? =
      some (bytes "/mibridge/m/s/a", bytes "1") ∧
    bufferAfter ([], []) (parseMsg literalFloat textOrder datagramStrings).events =
      (bytes "/mibridge/m/s/b", bytes "x") ∧
    ((Mqtt.Connect lateReader 0 [] (Multicast.trace literalFloat (fun _ => textOrder) 0
        [⟨datagramStrings, false⟩])).map (fun p => (p.topic, p.payload))).head? =
      some (bytes "/mibridge/m/s/b", bytes "x") ∧
    ∃ (m1 m2 : Message) (more : List Message) (later : List Event),
      (parseMsg literalFloat textOrder datagramStrings).sent = m1 :: m2 :: more ∧
      (parseMsg literalFloat textOrder datagramStrings).events =
        [.store 0 m1.1, .store 1 m1.2, .send, .store 0 m2.1, .store 1 m2.2, .send] ++ later :=
  ⟨by decide, by decide, by decide, by decide,
   buffer_written_after_send literalFloat textOrder datagramStrings (by decide)⟩

/-! ## C10: when `parseMsg` panics -/

/-- C10, counterexample: the data `{"a":1e999}` decodes as a JSON object, and
`parseMsg` panics on it without a message: `json.Unmarshal` reports the number
that does not fit a `float64` as an error, and `parseMsg` panics on every
error. -/
theorem object_with_huge_number_panics :
    checkValid (envelope datagramHugeNumber).Data = true ∧
    decodeValue (envelope datagramHugeNumber).Data = some (.obj [(bytes "a", .num (bytes "1e999"))]) ∧
    decodesAsObject (envelope datagramHugeNumber).Data = true ∧
    (parseMsg overflowFloat textOrder datagramHugeNumber).panicked = true ∧
    (parseMsg overflowFloat textOrder datagramHugeNumber).events = [] := by
  refine ⟨by decide, by rfl, by decide, by decide, by decide⟩

/-- C10, amended: `parseMsg` panics exactly when `json.Unmarshal` of the data
string into the map fails, which is when the data is not valid JSON, or is
valid JSON of a kind other than object and `null`, or is an object that
holds a number out of the range of `float64`. Put the other way: it returns
exactly on `null` and on an object all of whose numbers convert. Empty or
absent data and valid JSON of another kind are among the failures, and when
it panics it has done nothing before: no message was sent. Where no number
is out of range, it panics exactly when the data decodes neither as an
object nor as `null`. -/
theorem panics_iff_unmarshal_fails (fl : FloatLib) (ord : RangeOrder) (text : Bytes) :
    ((parseMsg fl ord text).panicked = true ↔
      (checkValid (envelope text).Data = false ∨
        isOtherKind (envelope text).Data = true ∨
        (decodesAsObject (envelope text).Data = true ∧
          holdsNumberOutOfRange fl (envelope text).Data = true))) ∧
    ((parseMsg fl ord text).panicked = false ↔
      (decodesAsNull (envelope text).Data = true ∨
        (decodesAsObject (envelope text).Data = true ∧
          holdsNumberOutOfRange fl (envelope text).Data = false))) ∧
    ((envelope text).Data = [] → (parseMsg fl ord text).panicked = true) ∧
    (isOtherKind (envelope text).Data = true → (parseMsg fl ord text).panicked = true) ∧
    ((parseMsg fl ord text).panicked = true → (parseMsg fl ord text).events = []) ∧
    (holdsNumberOutOfRange fl (envelope text).Data = false →
      ((parseMsg fl ord text).panicked = true ↔
        (decodesAsObject (envelope text).Data = false ∧
          decodesAsNull (envelope text).Data = false))) := by
  have key : ∀ s : Bytes,
      ((∃ e, unmarshalMap fl s = .error e) ↔
        (checkValid s = false ∨ isOtherKind s = true ∨
          (decodesAsObject s = true ∧ holdsNumberOutOfRange fl s = true))) ∧
      ((¬ ∃ e, unmarshalMap fl s = .error e) ↔
        (decodesAsNull s = true ∨
          (decodesAsObject s = true ∧ holdsNumberOutOfRange fl s = false))) ∧
      (holdsNumberOutOfRange fl s = false →
        ((∃ e, unmarshalMap fl s = .error e) ↔
          (decodesAsObject s = false ∧ decodesAsNull s = false))) := by
    intro s
    cases hv : checkValid s with
    | false =>
      simp [unmarshalMap, decodesAsObject, decodesAsNull, isOtherKind, hv]
    | true =>
      obtain ⟨v, hd⟩ := decodeValue_of_valid s hv
      cases v with
      | obj entries =>
        cases hn : numbersOk fl (.obj entries) <;>
          simp [unmarshalMap, decodesAsObject, decodesAsNull, isOtherKind,
            holdsNumberOutOfRange, hv, hd, hn]
      | _ =>
        simp [unmarshalMap, decodesAsObject, decodesAsNull, isOtherKind,
          holdsNumberOutOfRange, hv, hd]
  obtain ⟨k1, k2, k3⟩ := key (envelope text).Data
  refine ⟨?_, ?_, ?_, ?_, ?_, ?_⟩
  · rw [panicked_iff_error]; exact k1
  · rw [← k2, ← panicked_iff_error]
    cases (parseMsg fl ord text).panicked <;> simp
  · intro h
    rw [parseMsg_of_empty_data h]
  · intro h
    exact (panicked_iff_error fl ord text).mpr (k1.mpr (Or.inr (Or.inl h)))
  · intro h
    obtain ⟨e, he⟩ := (panicked_iff_error fl ord text).mp h
    rw [parseMsg_of_error he]
  · intro h
    rw [panicked_iff_error]; exact k3 h

/-- C10, worked examples: data `[1]` and data `5` are valid JSON of another kind,
and `parseMsg` panics on both; data `{"a":1,"b":"x"}` is an object whose
numbers convert, and `parseMsg` returns. -/
theorem panics_on_array_and_number :
    (isOtherKind (envelope datagramArrayData).Data = true ∧
      (parseMsg literalFloat textOrder datagramArrayData).panicked = true) ∧
    (isOtherKind (envelope datagramNumberData).Data = true ∧
      (parseMsg literalFloat textOrder datagramNumberData).panicked = true) ∧
    (decodesAsObject (envelope datagramNumber).Data = true ∧
      holdsNumberOutOfRange literalFloat (envelope datagramNumber).Data = false ∧
      (parseMsg literalFloat textOrder datagramNumber).panicked = false) :=
  ⟨⟨by decide,
    (panics_iff_unmarshal_fails literalFloat textOrder datagramArrayData).2.2.2.1 (by decide)⟩,
   ⟨by decide,
    (panics_iff_unmarshal_fails literalFloat textOrder datagramNumberData).2.2.2.1 (by decide)⟩,
   ⟨by decide, by decide,
    (panics_iff_unmarshal_fails literalFloat textOrder datagramNumber).2.1.mpr
      (Or.inr ⟨by decide, by decide⟩)⟩⟩

end Mibridge
